import Mathlib

/-!
# Verification of the dsa-visualizer orchestration layer

A shallow embedding of the repository's trace-repair, caching and
fallback logic, with theorems checking the specification's claims.

Embedded source:
* `src/services/apiService.ts` — `analyzeProblemWithBackend` (frame/quiz
  repair, filtering, timeout error mapping), `learnProblemWithBackend`,
  and the `sanitizeValue` helper.
* `src/unnamed/part_002` — the standalone Gemini service:
  `generateAlgorithmTrace`, `DEMO_TRACE`, its frame transform and filter.
* `src/unnamed/part_003` — `generate_cache_key` (normalize, sort, SHA-256).
* The backend narrator's post-processing (`_post_process_narrative`,
  highlight validation, `_shuffle_quiz_options`) is not part of the
  source tree; those operations are modelled from the specification text
  and are marked `Modelled from the spec:` on their definitions.

JavaScript values are embedded as the inductive `JValue`; a JS `number`
is a `JNum`, a finite rational or one of the non-finite specials (the
claims under check depend only on finiteness, never on float rounding).
JS exceptions (strict-mode TypeErrors on property access/assignment) are
embedded with `Except Unit`; the per-frame `try/catch` of the source
becomes a total function returning the source's recovery frame.
-/

/-- A JavaScript number: a finite value, or `NaN`, `Infinity`, `-Infinity`. -/
inductive JNum where
  | finite (q : Rat)
  | nan
  | inf
  | negInf
deriving DecidableEq, Repr

/-- A JavaScript value as seen by the adapter code. Arrays carry their
elements and any expando (string-keyed) properties assigned to the array
object; values produced by `JSON.parse` never carry expandos. -/
inductive JValue where
  | null
  | undef
  | bool (b : Bool)
  | num (n : JNum)
  | str (s : String)
  | arr (elems : List JValue) (props : List (String × JValue))
  | obj (fields : List (String × JValue))

namespace JValue

mutual
def beq : JValue → JValue → Bool
  | .null, .null => true
  | .undef, .undef => true
  | .bool a, .bool b => a == b
  | .num a, .num b => a == b
  | .str a, .str b => a == b
  | .arr es ps, .arr es' ps' => beqList es es' && beqProps ps ps'
  | .obj fs, .obj fs' => beqProps fs fs'
  | _, _ => false

def beqList : List JValue → List JValue → Bool
  | [], [] => true
  | v :: vs, w :: ws => beq v w && beqList vs ws
  | _, _ => false

def beqProps : List (String × JValue) → List (String × JValue) → Bool
  | [], [] => true
  | (k, v) :: vs, (k', w) :: ws => k == k' && beq v w && beqProps vs ws
  | _, _ => false
end

mutual
theorem beq_iff : ∀ {a b : JValue}, beq a b = true ↔ a = b
  | .null, .null => by simp [beq]
  | .undef, .undef => by simp [beq]
  | .bool a, .bool b => by simp [beq]
  | .num a, .num b => by simp [beq]
  | .str a, .str b => by simp [beq]
  | .arr es ps, .arr es' ps' => by
      simp [beq, Bool.and_eq_true, beqList_iff, beqProps_iff]
  | .obj fs, .obj fs' => by simp [beq, beqProps_iff]
  | .null, .undef | .null, .bool _ | .null, .num _ | .null, .str _ | .null, .arr _ _ | .null, .obj _ => by simp [beq]
  | .undef, .null | .undef, .bool _ | .undef, .num _ | .undef, .str _ | .undef, .arr _ _ | .undef, .obj _ => by simp [beq]
  | .bool _, .null | .bool _, .undef | .bool _, .num _ | .bool _, .str _ | .bool _, .arr _ _ | .bool _, .obj _ => by simp [beq]
  | .num _, .null | .num _, .undef | .num _, .bool _ | .num _, .str _ | .num _, .arr _ _ | .num _, .obj _ => by simp [beq]
  | .str _, .null | .str _, .undef | .str _, .bool _ | .str _, .num _ | .str _, .arr _ _ | .str _, .obj _ => by simp [beq]
  | .arr _ _, .null | .arr _ _, .undef | .arr _ _, .bool _ | .arr _ _, .num _ | .arr _ _, .str _ | .arr _ _, .obj _ => by simp [beq]
  | .obj _, .null | .obj _, .undef | .obj _, .bool _ | .obj _, .num _ | .obj _, .str _ | .obj _, .arr _ _ => by simp [beq]

theorem beqList_iff : ∀ {a b : List JValue}, beqList a b = true ↔ a = b
  | [], [] => by simp [beqList]
  | v :: vs, w :: ws => by simp [beqList, Bool.and_eq_true, beq_iff, beqList_iff]
  | [], _ :: _ => by simp [beqList]
  | _ :: _, [] => by simp [beqList]

theorem beqProps_iff : ∀ {a b : List (String × JValue)}, beqProps a b = true ↔ a = b
  | [], [] => by simp [beqProps]
  | (k, v) :: vs, (k', w) :: ws => by
      simp [beqProps, Bool.and_eq_true, beq_iff, beqProps_iff, Prod.ext_iff]
  | [], _ :: _ => by simp [beqProps]
  | _ :: _, [] => by simp [beqProps]
end

instance : DecidableEq JValue := fun a b => decidable_of_iff (beq a b = true) beq_iff

/-- JavaScript truthiness. -/
def truthy : JValue → Bool
  | .null => false
  | .undef => false
  | .bool b => b
  | .num (.finite q) => q ≠ 0
  | .num .nan => false
  | .num .inf => true
  | .num .negInf => true
  | .str s => s ≠ ""
  | .arr _ _ => true
  | .obj _ => true

/-- `typeof v === 'object'` (true for plain objects, arrays and `null`). -/
def typeofIsObject : JValue → Bool
  | .null => true
  | .arr _ _ => true
  | .obj _ => true
  | _ => false

/-- The own enumerable string-keyed properties of a value, in order: a
plain object's fields; an array's index properties followed by its
expandos; a string's character index properties. Primitives have none.
This is the view used by property reads, object spread and rest
destructuring. -/
def jfields : JValue → List (String × JValue)
  | .obj fs => fs
  | .arr elems props => (elems.enum.map (fun p => (toString p.1, p.2))) ++ props
  | .str s => s.toList.enum.map (fun p => (toString p.1, .str (String.singleton p.2)))
  | _ => []

/-- Property read that never throws (used where the source has already
ruled out a `null`/`undefined` receiver): a missing key is `undefined`. -/
def jgetD (v : JValue) (k : String) : JValue :=
  (((jfields v).lookup k).getD .undef)

/-- Property read with JS semantics: reading from `null`/`undefined`
throws a TypeError. -/
def getProp : JValue → String → Except Unit JValue
  | .null, _ => .error ()
  | .undef, _ => .error ()
  | v, k => .ok (jgetD v k)

/-- JS assignment into a property list: overwrite the first occurrence of
the key in place, else append (insertion order is preserved, as for JS
objects). -/
def objSet : List (String × JValue) → String → JValue → List (String × JValue)
  | [], k, x => [(k, x)]
  | (k', v) :: rest, k, x =>
      if k' = k then (k, x) :: rest else (k', v) :: objSet rest k x

/-- Property write with JS strict-mode semantics: objects and arrays
accept the write (for an array, under a name that is not an element
index — the adapter only ever assigns fixed non-numeric names); writing
to a primitive, `null` or `undefined` throws a TypeError. -/
def setProp : JValue → String → JValue → Except Unit JValue
  | .obj fs, k, x => .ok (.obj (objSet fs k x))
  | .arr elems props, k, x => .ok (.arr elems (objSet props k x))
  | _, _, _ => .error ()

/-- Object spread `{...v}`: the own enumerable properties of `v`. -/
def jspread (v : JValue) : List (String × JValue) := jfields v

/-- Rest destructuring `{ k, ...rest } = v` applied to a property list:
every occurrence of `k` is removed. -/
def objRemove (fs : List (String × JValue)) (k : String) : List (String × JValue) :=
  fs.filter (fun kv => kv.1 ≠ k)

/-- The keys seen by `Object.keys`, deduplicated keeping the first
occurrence (a real JS object cannot carry a duplicate key). -/
def dedupKeys (seen : List String) : List String → List String
  | [] => []
  | k :: ks => if k ∈ seen then dedupKeys seen ks else k :: dedupKeys (k :: seen) ks

/-- `Object.keys(v)`. -/
def jKeys (v : JValue) : List String := dedupKeys [] ((jfields v).map Prod.fst)

/-- `Object.keys(v).length`. -/
def jKeyCount (v : JValue) : Nat := (jKeys v).length

/-- `String(n)` for a JS number, as used on the non-finite specials. For
a finite value the decimal rendering of the rational stands in for JS
float formatting (no claim depends on it). -/
def numToString : JNum → String
  | .nan => "NaN"
  | .inf => "Infinity"
  | .negInf => "-Infinity"
  | .finite q => toString q

mutual
/-- `String(v)`: JS string coercion (array `toString` is the
comma-join of its elements with `null`/`undefined` rendered empty;
a plain object renders as `[object Object]`). -/
def jsToString : JValue → String
  | .null => "null"
  | .undef => ("undefined")
  | .bool b => if b then "true" else "false"
  | .num n => numToString n
  | .str s => s
  | .arr elems _ => joinElems elems
  | .obj _ => "[object Object]"

def joinElems : List JValue → String
  | [] => ""
  | [v] => elemToString v
  | v :: vs => elemToString v ++ "," ++ joinElems vs

def elemToString : JValue → String
  | .null => ""
  | .undef => ("")
  | v => jsToString v
end

/-- `Number(s)` for a string: optional surrounding whitespace, an
optional sign, and either `Infinity` or a decimal literal (integer part,
optional fraction). Anything else is `NaN`. (Exotic literal forms — hex,
exponents — do not occur in any payload field the adapter coerces.) -/
def jsStringToNumber (s : String) : JNum :=
  let ws := [' ', '\t', '\n', '\r']
  let cs := (s.toList.dropWhile (· ∈ ws)).reverse.dropWhile (· ∈ ws) |>.reverse
  if cs = [] then .finite 0
  else
    let (neg, body) : Bool × List Char :=
      match cs with
      | '-' :: rest => (true, rest)
      | '+' :: rest => (false, rest)
      | _ => (false, cs)
    if body = ['I', 'n', 'f', 'i', 'n', 'i', 't', 'y'] then
      (if neg then .negInf else .inf)
    else
      let intPart := body.takeWhile Char.isDigit
      let rest := body.drop intPart.length
      let fracPart : Option (List Char) :=
        match rest with
        | [] => some []
        | '.' :: fr => if fr.all Char.isDigit then some fr else none
        | _ => none
      match fracPart with
      | none => .nan
      | some fr =>
          if intPart = [] ∧ fr = [] then .nan
          else
            let digitsVal : List Char → Nat := fun l =>
              l.foldl (fun acc c => acc * 10 + (c.toNat - 48)) 0
            -- the value is ±(intPart + frac/10^len), as one normalized fraction
            let den : Nat := 10 ^ fr.length
            let numer : Int := (digitsVal intPart * den + digitsVal fr : Nat)
            .finite (mkRat (if neg then -numer else numer) den)

/-- `Number(v)`: JS number coercion. An array coerces through its string
form when not a singleton; `Number([])` is `0`, `Number([x])` is
`Number(x)`. An object is `NaN`. -/
def jsToNumber : JValue → JNum
  | .null => .finite 0
  | .undef => .nan
  | .bool b => .finite (if b then 1 else 0)
  | .num n => n
  | .str s => jsStringToNumber s
  | .arr [] _ => .finite 0
  | .arr [v] _ =>
      (match v with
       | .null => .finite 0
       | .undef => .finite 0
       | .arr _ _ => jsStringToNumber (jsToString v)
       | .obj _ => .nan
       | w => jsToNumber w)
  | .arr (_ :: _ :: _) _ => .nan
  | .obj _ => .nan

/-- `v + 1` as JS evaluates it in the fallback `stepNum + 1`: numeric
addition after number coercion unless either side is a string, in which
case string concatenation after string coercion. -/
def jsAddOne : JValue → JValue
  | .str s => .str (s ++ "1")
  | .arr elems props => .str (jsToString (.arr elems props) ++ "1")
  | .obj fs => .str (jsToString (.obj fs) ++ "1")
  | v =>
      match jsToNumber v with
      | .finite q => .num (.finite (mkRat (q.num + q.den) q.den))  -- q + 1
      | .nan => .num .nan
      | .inf => .num .inf
      | .negInf => .num .negInf

mutual
/-- `sanitizeValue` of `src/services/apiService.ts` (lines 152–171) and,
verbatim identical, of `src/unnamed/part_002` (lines 232–251): depth-
bounded recursive cleaning of a value. Beyond depth 10 everything
becomes the string `[Max Depth]`; `null`/`undefined` become `null`;
non-finite numbers become their string form; arrays and objects are
rebuilt recursively (an array is rebuilt by `val.map`, so expandos are
dropped); any other value is stringified. -/
def sanitizeValue : JValue → Nat → JValue
  | val, depth =>
    if depth > 10 then .str "[Max Depth]"
    else
      match val with
      | .null => .null
      | .undef => .null
      | .num n => if n matches .finite _ then .num n else .str (numToString n)
      | .str s => .str s
      | .bool b => .bool b
      | .arr elems _props => .arr (sanitizeList elems (depth + 1)) []
      | .obj fields => .obj (sanitizeFields fields (depth + 1))

def sanitizeList : List JValue → Nat → List JValue
  | [], _ => []
  | v :: vs, d => sanitizeValue v d :: sanitizeList vs d

def sanitizeFields : List (String × JValue) → Nat → List (String × JValue)
  | [], _ => []
  | (k, v) :: kvs, d => (k, sanitizeValue v d) :: sanitizeFields kvs d
end

mutual
/-- A value is JSON-shaped (the image of `JSON.parse` / `response.json()`):
no `undefined`, no non-finite number, no array expandos. -/
def isJson : JValue → Bool
  | .null => true
  | .undef => false
  | .bool _ => true
  | .num n => (n matches .finite _)
  | .str _ => true
  | .arr elems props => props.isEmpty && isJsonList elems
  | .obj fields => isJsonProps fields

def isJsonList : List JValue → Bool
  | [] => true
  | v :: vs => isJson v && isJsonList vs

def isJsonProps : List (String × JValue) → Bool
  | [] => true
  | (_, v) :: kvs => isJson v && isJsonProps kvs
end

end JValue

/-! ## `src/services/apiService.ts` — `analyzeProblemWithBackend` -/

namespace ApiService
open JValue

/-- Line 203: the accepted `visual_type` values. -/
def validTypes : List String := ["heap", "array", "list", "tree", "graph", "map", "matrix"]

/-- `validTypes.includes(v)` under strict equality. -/
def validTypesIncludes : JValue → Bool
  | .str s => validTypes.contains s
  | _ => false

/-- Line 192: the default state installed when `frame.state` is falsy. -/
def defaultState : JValue :=
  .obj [("visual_type", .str "array"), ("data", .obj []), ("highlights", .arr [] [])]

/-- Lines 255–260: the recovery frame returned by the per-frame `catch`. -/
def recoveredFrame (idx : Nat) : JValue :=
  .obj [("step_id", .num (.finite (idx : Rat))),
        ("commentary", .str ("Step " ++ toString (idx + 1) ++ " (recovered)")),
        ("state", .obj [("visual_type", .str "array"),
                        ("data", .obj [("STEP", .arr [.num (.finite ((idx + 1 : Nat) : Rat))] []),
                                       ("STATUS", .arr [.str "Recovered"] [])]),
                        ("highlights", .arr [] [])]),
        ("quiz", .null)]

/-- Lines 183–186: `data_entries.reduce((acc, curr) => { acc[curr.name] =
curr.values; return acc; }, {})`. Reading `curr.name` throws on a
`null`/`undefined` entry; the computed key is the string coercion of the
`name` value. -/
def reduceEntries : List JValue → List (String × JValue) → Except Unit (List (String × JValue))
  | [], acc => .ok acc
  | curr :: rest, acc => do
      let nameV ← getProp curr "name"
      let valuesV ← getProp curr "values"
      reduceEntries rest (objSet acc (jsToString nameV) valuesV)

/-- Lines 230–250: the quiz `correct` fix, for a truthy `frame.quiz`: a
missing (`undefined`/`null`) `correct` becomes `0`; otherwise `correct`
is number-coerced, and `NaN` becomes `0`. Writing to a primitive quiz
throws (as the source does at its `'correct' in frame.quiz` probe). -/
def fixQuizCorrect (quiz : JValue) : Except Unit JValue := do
  let c := jgetD quiz "correct"
  match c with
  | .undef => (setProp quiz "correct" (.num (.finite 0)))
  | .null => setProp quiz "correct" (.num (.finite 0))
  | _ =>
      let n := jsToNumber c
      if n matches .nan then setProp quiz "correct" (.num (.finite 0))
      else setProp quiz "correct" (.num n)

/-- Lines 191–219: the in-place repairs applied to `frame.state` (the
default-data fix, the highlights array fix, the `visual_type` fix, the
`sanitizeValue` pass, and the empty-data fallback), as one functional
chain from the state value read at line 191 (`st1`) to the state value
the frame ends up holding. `stepIdV` is the `frame.step_id` the fallback
reads at line 213. -/
def repairStateChain (st1 : JValue) (stepIdV : JValue) (idx : Nat) : Except Unit JValue := do
  let stA := if truthy st1 then st1 else defaultState
  -- if (!frame.state.data || typeof frame.state.data !== 'object') frame.state.data = {}
  let d0 := jgetD stA "data"
  let stB ← if truthy d0 && typeofIsObject d0 then pure stA else setProp stA "data" (.obj [])
  -- if (!Array.isArray(frame.state.highlights)) frame.state.highlights = []
  let stC ← if (jgetD stB "highlights") matches .arr _ _ then pure stB
            else setProp stB "highlights" (.arr [] [])
  -- if (!frame.state.visual_type || !validTypes.includes(frame.state.visual_type)) ...
  let vt := jgetD stC "visual_type"
  let stD ← if truthy vt && validTypesIncludes vt then pure stC
            else setProp stC "visual_type" (.str "array")
  -- frame.state.data = sanitizeValue(frame.state.data)
  let stE ← setProp stD "data" (sanitizeValue (jgetD stD "data") 0)
  -- if (Object.keys(frame.state.data).length === 0) { ...fallback data... }
  if jKeyCount (jgetD stE "data") == 0 then
    let stepNum := match stepIdV with
                   | .null => JValue.num (.finite (idx : Rat))
                   | .undef => JValue.num (.finite (idx : Rat))
                   | v => v
    setProp stE "data" (.obj [("STEP", .arr [jsAddOne stepNum] []),
                              ("STATUS", .arr [.str "Processing..."] [])])
  else pure stE

/-- Lines 174–252: one frame through the repair `map`, before the
`catch`. The state object is tracked functionally and written back once
at the end — equivalent to the source's in-place mutation because a
parsed JSON value has no aliasing. -/
def repairFrameCore (frame0 : JValue) (idx : Nat) : Except Unit JValue := do
  -- if (frame.state && frame.state.data_entries) { ...rebuild frame... }
  let st0 ← getProp frame0 "state"
  let frame2 ←
    if truthy st0 then
      let de := jgetD st0 "data_entries"
      if truthy de then
        match de with
        | .arr entries _ => do
            let dataFields ← reduceEntries entries []
            let stateRest := objRemove (jspread st0) "data_entries"
            pure (JValue.obj (objSet (jspread frame0) "state"
              (.obj (objSet stateRest "data" (.obj dataFields)))))
        | _ => .error ()   -- data_entries.reduce is not a function
      else pure frame0
    else pure frame0
  -- if (!frame.state) frame.state = { visual_type: 'array', data: {}, highlights: [] }
  let st1 := jgetD frame2 "state"
  let frame3 ← if truthy st1 then pure frame2 else setProp frame2 "state" defaultState
  -- lines 195–219: the state repairs, from the state read at line 191
  let stF ← repairStateChain st1 (jgetD frame3 "step_id") idx
  -- if (typeof frame.step_id !== 'number') frame.step_id = idx
  let frame4 ← if (jgetD frame3 "step_id") matches .num _ then pure frame3
               else setProp frame3 "step_id" (.num (.finite (idx : Rat)))
  -- if (typeof frame.commentary !== 'string') frame.commentary = `Step ...`
  let frame5 ← if (jgetD frame4 "commentary") matches .str _ then pure frame4
               else setProp frame4 "commentary" (.str ("Step " ++ toString (idx + 1)))
  -- if (frame.quiz) { ...correct fix... }
  let qz := jgetD frame5 "quiz"
  let frame6 ←
    if truthy qz then do
      let q2 ← fixQuizCorrect qz
      setProp frame5 "quiz" q2
    else pure frame5
  setProp frame6 "state" stF

/-- Lines 174–262: one frame through the repair `map`, `catch` included. -/
def repairFrame (f : JValue) (idx : Nat) : JValue :=
  match repairFrameCore f idx with
  | .ok v => v
  | .error _ => recoveredFrame idx

/-- Lines 265–267: `f && f.state && f.state.data &&
Object.keys(f.state.data).length > 0`. -/
def frameFilterPred (f : JValue) : Bool :=
  truthy f && truthy (jgetD f "state") && truthy (jgetD (jgetD f "state") "data")
    && decide (0 < jKeyCount (jgetD (jgetD f "state") "data"))

/-- `.map((frame, idx) => ...)` with the element index made explicit. -/
def mapWithIdx (g : Nat → JValue → JValue) : Nat → List JValue → List JValue
  | _, [] => []
  | i, f :: fs => g i f :: mapWithIdx g (i + 1) fs

/-- `(data.frames || [])`; `none` marks the TypeError paths (`data` is
`null`/`undefined`, or `data.frames` is truthy but not an array, so
`.map` is not a function) that escape to the outer `catch`. -/
def framesJ (data : JValue) : Option (List JValue) :=
  match data with
  | .null => none
  | .undef => none
  | _ =>
      let f0 := jgetD data "frames"
      if truthy f0 then
        match f0 with
        | .arr es _ => some es
        | _ => none
      else some []

def repairedFramesOf (data : JValue) : Option (List JValue) :=
  (framesJ data).map (mapWithIdx (fun i f => repairFrame f i) 0)

def validFramesOf (data : JValue) : Option (List JValue) :=
  (repairedFramesOf data).map (List.filter frameFilterPred)

inductive AnalyzeError where
  | timeout
  | backendError
  | noValidFrames
  | typeError
  | network
deriving DecidableEq, Repr

/-- Lines 137–273: processing of a decoded `/analyze` response body:
repair every frame, keep the ones whose `data` is non-empty, fail when
none remain, otherwise return `{ ...data, frames: validFrames }`. -/
def analyzeProcess (data : JValue) : Except AnalyzeError JValue :=
  match validFramesOf data with
  | none => .error .typeError
  | some [] => .error .noValidFrames
  | some vf => .ok (.obj (objSet (jspread data) "frames" (.arr vf [])))

/-- Outcome of the `fetch` against the backend, the timeout race
included: `aborted` is the `AbortController` firing when the bounded
timeout elapses before the response arrives. -/
inductive FetchOutcome where
  | aborted
  | networkFailure
  | httpError
  | ok (data : JValue)

/-- Line 99: `setTimeout(() => controller.abort(), 120000)`. -/
def analyzeTimeoutMs : Nat := 120000

/-- Line 294: `setTimeout(() => controller.abort(), 180000)`. -/
def learnTimeoutMs : Nat := 180000

/-- Lines 90–281: `analyzeProblemWithBackend` as a function of the fetch
outcome; the `catch` maps an `AbortError` to the timeout error. -/
def analyzeRun : FetchOutcome → Except AnalyzeError JValue
  | .aborted => .error .timeout
  | .networkFailure => .error .network
  | .httpError => .error .backendError
  | .ok data => analyzeProcess data

inductive LearnError where
  | timeout
  | learnFailed
  | network
deriving DecidableEq, Repr

/-- Lines 286–345: `learnProblemWithBackend` as a function of the fetch
outcome. -/
def learnRun : FetchOutcome → Except LearnError JValue
  | .aborted => .error .timeout
  | .networkFailure => .error .network
  | .httpError => .error .learnFailed
  | .ok data => .ok data

/-- Line 277: the message thrown on an `AbortError`, and the other error
messages of the analyze path. -/
def analyzeErrorMessage : AnalyzeError → String
  | .timeout => "Backend timed out."
  | .backendError => "Backend encountered an error during synthesis."
  | .noValidFrames => "Backend returned no valid frames."
  | .typeError => "TypeError"
  | .network => "NetworkError"

/-- Line 341: the message thrown on an `AbortError` of the learn path. -/
def learnErrorMessage : LearnError → String
  | .timeout => "Learning mode timed out."
  | .learnFailed => "Backend learning mode failed."
  | .network => "NetworkError"

/-- The frames list of a trace value. -/
def traceFrames (t : JValue) : List JValue :=
  match jgetD t "frames" with
  | .arr es _ => es
  | _ => []

end ApiService

/-! ## SHA-256 (for `generate_cache_key` of `src/unnamed/part_003`) -/

namespace Sha256

/-- Truncation to a 32-bit word. -/
def w32 (x : Nat) : Nat := x % 4294967296

def rotr (n x : Nat) : Nat := w32 ((x >>> n) ||| (x <<< (32 - n)))

def bigSigma0 (x : Nat) : Nat := rotr 2 x ^^^ rotr 13 x ^^^ rotr 22 x
def bigSigma1 (x : Nat) : Nat := rotr 6 x ^^^ rotr 11 x ^^^ rotr 25 x
def smallSigma0 (x : Nat) : Nat := rotr 7 x ^^^ rotr 18 x ^^^ (x >>> 3)
def smallSigma1 (x : Nat) : Nat := rotr 17 x ^^^ rotr 19 x ^^^ (x >>> 10)
def ch (x y z : Nat) : Nat := (x &&& y) ^^^ ((x ^^^ 4294967295) &&& z)
def maj (x y z : Nat) : Nat := (x &&& y) ^^^ (x &&& z) ^^^ (y &&& z)

def K : List Nat :=
  [1116352408, 1899447441, 3049323471, 3921009573, 961987163, 1508970993, 2453635748, 2870763221,
   3624381080, 310598401, 607225278, 1426881987, 1925078388, 2162078206, 2614888103, 3248222580,
   3835390401, 4022224774, 264347078, 604807628, 770255983, 1249150122, 1555081692, 1996064986,
   2554220882, 2821834349, 2952996808, 3210313671, 3336571891, 3584528711, 113926993, 338241895,
   666307205, 773529912, 1294757372, 1396182291, 1695183700, 1986661051, 2177026350, 2456956037,
   2730485921, 2820302411, 3259730800, 3345764771, 3516065817, 3600352804, 4094571909, 275423344,
   430227734, 506948616, 659060556, 883997877, 958139571, 1322822218, 1537002063, 1747873779,
   1955562222, 2024104815, 2227730452, 2361852424, 2428436474, 2756734187, 3204031479, 3329325298]

def H0 : List Nat :=
  [1779033703, 3144134277, 1013904242, 2773480762, 1359893119, 2600822924, 528734635, 1541459225]

/-- Extend a 16-word block to the 64-word message schedule. -/
def extendSchedule : Nat → List Nat → List Nat
  | 0, acc => acc
  | n + 1, acc =>
      let i := acc.length
      let w := w32 (smallSigma1 (acc.getD (i - 2) 0) + acc.getD (i - 7) 0 +
                    smallSigma0 (acc.getD (i - 15) 0) + acc.getD (i - 16) 0)
      extendSchedule n (acc ++ [w])

def roundStep (st : Nat × Nat × Nat × Nat × Nat × Nat × Nat × Nat) (kw : Nat × Nat) :
    Nat × Nat × Nat × Nat × Nat × Nat × Nat × Nat :=
  let (a, b, c, d, e, f, g, h) := st
  let t1 := w32 (h + bigSigma1 e + ch e f g + kw.1 + kw.2)
  let t2 := w32 (bigSigma0 a + maj a b c)
  (w32 (t1 + t2), a, b, c, w32 (d + t1), e, f, g)

def compressBlock (hs : List Nat) (block : List Nat) : List Nat :=
  let ws := extendSchedule 48 block
  let st0 := (hs.getD 0 0, hs.getD 1 0, hs.getD 2 0, hs.getD 3 0,
              hs.getD 4 0, hs.getD 5 0, hs.getD 6 0, hs.getD 7 0)
  let (a, b, c, d, e, f, g, h) := (K.zip ws).foldl roundStep st0
  [w32 (hs.getD 0 0 + a), w32 (hs.getD 1 0 + b), w32 (hs.getD 2 0 + c), w32 (hs.getD 3 0 + d),
   w32 (hs.getD 4 0 + e), w32 (hs.getD 5 0 + f), w32 (hs.getD 6 0 + g), w32 (hs.getD 7 0 + h)]

/-- Big-endian packing of bytes into 32-bit words. -/
def toWordsBE : List Nat → List Nat
  | b0 :: b1 :: b2 :: b3 :: rest =>
      ((((b0 <<< 8) ||| b1) <<< 8 ||| b2) <<< 8 ||| b3) :: toWordsBE rest
  | _ => []

/-- Process the word stream 16 words (one block) at a time; the fuel is
an upper bound on the number of blocks. -/
def processWords : Nat → List Nat → List Nat → List Nat
  | 0, hs, _ => hs
  | _ + 1, hs, [] => hs
  | fuel + 1, hs, ws => processWords fuel (compressBlock hs (ws.take 16)) (ws.drop 16)

/-- SHA-256 padding: `0x80`, zeros to 56 mod 64, then the bit length as
eight big-endian bytes. -/
def pad (msg : List Nat) : List Nat :=
  let zeros := (55 + 64 - msg.length % 64) % 64
  msg ++ (128 :: List.replicate zeros 0) ++
    ((List.range 8).map (fun i => ((msg.length * 8) >>> (56 - 8 * i)) &&& 255))

def hexDigitChar (n : Nat) : Char := if n < 10 then Char.ofNat (48 + n) else Char.ofNat (87 + n)

def toHex8 (x : Nat) : String :=
  String.mk ((List.range 8).map (fun i => hexDigitChar ((x >>> (28 - 4 * i)) &&& 15)))

/-- `hashlib.sha256(bytes).hexdigest()`. -/
def hexDigest (msg : List Nat) : String :=
  let ws := toWordsBE (pad msg)
  String.join ((processWords ws.length H0 ws).map toHex8)

/-- UTF-8 encoding of one scalar value (as `str.encode()` produces). -/
def utf8Char (c : Char) : List Nat :=
  let n := c.toNat
  if n < 128 then [n]
  else if n < 2048 then [192 ||| (n >>> 6), 128 ||| (n &&& 63)]
  else if n < 65536 then
    [224 ||| (n >>> 12), 128 ||| ((n >>> 6) &&& 63), 128 ||| (n &&& 63)]
  else
    [240 ||| (n >>> 18), 128 ||| ((n >>> 12) &&& 63), 128 ||| ((n >>> 6) &&& 63), 128 ||| (n &&& 63)]

/-- `s.encode()`: UTF-8 bytes of a string. -/
def utf8Bytes (s : String) : List Nat :=
  s.toList.foldr (fun c acc => utf8Char c ++ acc) []

end Sha256

/-! ## `generate_cache_key` (`src/unnamed/part_003`, lines 1153–1171) -/

namespace CacheKey

/-- The characters `str.strip()` removes. -/
def pyWhitespace : List Char := [' ', '\t', '\n', '\r', '\x0B', '\x0C']

/-- `problem_text.strip()`. -/
def pyStrip (s : String) : String :=
  String.mk (((s.toList.dropWhile (· ∈ pyWhitespace)).reverse.dropWhile
    (· ∈ pyWhitespace)).reverse)

/-- `.lower()` (ASCII case folding; the toggles and problem texts the
backend receives are ASCII). -/
def pyLower (s : String) : String := String.mk (s.toList.map Char.toLower)

/-- `sorted(context_toggles)`: ascending code-point order on strings. -/
def sortedStrings (l : List String) : List String := List.insertionSort (· ≤ ·) l

/-- `generate_cache_key(problem_text, context_toggles)`: strip and
lower-case the problem text, sort the toggles, join as
`normalized:t1:t2:...`, and SHA-256 the UTF-8 bytes. The key is a
function of the problem text and the toggles alone — the signature has
no session or credential input. -/
def generate_cache_key (problem_text : String) (context_toggles : List String) : String :=
  let normalized := pyLower (pyStrip problem_text)
  let sorted_toggles := sortedStrings context_toggles
  let key_input := normalized ++ ":" ++ String.intercalate ":" sorted_toggles
  Sha256.hexDigest (Sha256.utf8Bytes key_input)

end CacheKey

/-! ## `src/unnamed/part_002` — the standalone Gemini service -/

namespace Gemini
open JValue

/-- `DEMO_TRACE` (lines 62–93): the fixed fallback trace. -/
def DEMO_TRACE : JValue :=
  .obj [("title", .str "Median of Stream (Standalone Mode)"),
        ("strategy", .str "Two-Heap Optimization"),
        ("strategy_details", .str "The Two-Heap strategy maintains a Max-Heap for the lower half of data and a Min-Heap for the upper half. This ensures the median is always at the root of one (or both) heaps, providing O(1) access. Insertions stay O(log N)."),
        ("complexity", .obj [("time", .str "O(log n)"), ("space", .str "O(n)")]),
        ("frames", .arr
          [.obj [("step_id", .num (.finite 0)),
                 ("commentary", .str "Welcome to AlgoInsight Standalone. We initialize two heaps. First, we push **15** into the Max Heap (representing the smaller half)."),
                 ("state", .obj [("visual_type", .str "heap"),
                                 ("data", .obj [("max_heap", .arr [.num (.finite 15)] []),
                                                ("min_heap", .arr [] [])]),
                                 ("highlights", .arr [.str "max_heap"] [])]),
                 ("quiz", .null)],
           .obj [("step_id", .num (.finite 1)),
                 ("commentary", .str "To maintain the balance where the Min-Heap contains the larger elements, we move the top of the Max-Heap to the Min-Heap."),
                 ("state", .obj [("visual_type", .str "heap"),
                                 ("data", .obj [("max_heap", .arr [] []),
                                                ("min_heap", .arr [.num (.finite 15)] [])]),
                                 ("highlights", .arr [.str "min_heap"] [])]),
                 ("quiz", .obj [("question", .str "If we add a new value 20, where should it go first?"),
                                ("options", .arr [.str "Always Max-Heap", .str "Always Min-Heap", .str "Depends on the current median"] []),
                                ("correct", .num (.finite 0))])]] [])]

/-- Lines 257–262: the guarded reduce over `data_entries`:
`if (curr && curr.name) acc[curr.name] = curr.values || []`. -/
def geminiReduce : List JValue → List (String × JValue) → List (String × JValue)
  | [], acc => acc
  | curr :: rest, acc =>
      let acc2 :=
        if truthy curr && truthy (jgetD curr "name") then
          let v := jgetD curr "values"
          objSet acc (jsToString (jgetD curr "name")) (if truthy v then v else .arr [] [])
        else acc
      geminiReduce rest acc2

/-- Lines 253–274: one frame of the cloud response, before the `catch`.
Reading `frame.state` throws on a `null`/`undefined` frame; a truthy
non-array `data_entries` throws at `.reduce`. -/
def geminiRepairFrameCore (f : JValue) (idx : Nat) : Except Unit JValue := do
  let st0 ← getProp f "state"
  let stOr := if truthy st0 then st0 else JValue.obj []
  let de := jgetD stOr "data_entries"
  let entries ←
    match (if truthy de then de else JValue.arr [] []) with
    | .arr es _ => pure es
    | _ => .error ()
  let transformedData := JValue.obj (geminiReduce entries [])
  let stateRest := objRemove (jspread stOr) "data_entries"
  let vt := (stateRest.lookup "visual_type").getD .undef
  let hl := (stateRest.lookup "highlights").getD .undef
  pure (JValue.obj
    [("step_id", if (jgetD f "step_id") matches .num _ then jgetD f "step_id"
                 else .num (.finite (idx : Rat))),
     ("commentary", if (jgetD f "commentary") matches .str _ then jgetD f "commentary"
                    else .str ("Step " ++ toString (idx + 1))),
     ("state", .obj [("visual_type", if truthy vt then vt else .str "array"),
                     ("data", sanitizeValue transformedData 0),
                     ("highlights", if hl matches .arr _ _ then hl else .arr [] [])]),
     ("quiz", if truthy (jgetD f "quiz") then jgetD f "quiz" else .null)])

/-- Lines 277–283: the per-frame recovery value (its `data` is empty). -/
def geminiRecoveredFrame (idx : Nat) : JValue :=
  .obj [("step_id", .num (.finite (idx : Rat))),
        ("commentary", .str ("Step " ++ toString (idx + 1) ++ " (recovered)")),
        ("state", .obj [("visual_type", .str "array"), ("data", .obj []),
                        ("highlights", .arr [] [])]),
        ("quiz", .null)]

def geminiRepairFrame (f : JValue) (idx : Nat) : JValue :=
  match geminiRepairFrameCore f idx with
  | .ok v => v
  | .error _ => geminiRecoveredFrame idx

/-- Line 287: `f && f.state && typeof f.state.data === 'object'`. -/
def geminiFilterPred (f : JValue) : Bool :=
  truthy f && truthy (jgetD f "state") && typeofIsObject (jgetD (jgetD f "state") "data")

/-- Line 163: `!apiKey || apiKey === "YOUR_API_KEY" || apiKey.length < 10`. -/
def apiKeyInvalid : Option String → Bool
  | none => true
  | some k => k == "" || k == "YOUR_API_KEY" || decide (k.length < 10)

/-- Outcome of the model call: transport/provider failure, a missing or
empty response text (line 227), an unparseable text, or parsed JSON. -/
inductive ModelOutcome where
  | transportError
  | emptyText
  | parseFailed
  | parsed (raw : JValue)

/-- Lines 153–298: `generateAlgorithmTrace` as a function of the API key
and the model call outcome. Total: every failure path — invalid key,
transport error, empty text, parse failure, a non-array `frames`, or no
frame surviving the filter — returns `DEMO_TRACE` instead of raising;
a success returns `{ ...raw, frames: validFrames }`. -/
def generateAlgorithmTrace (apiKey : Option String) (outcome : ModelOutcome) : JValue :=
  if apiKeyInvalid apiKey then DEMO_TRACE
  else
    match outcome with
    | .parsed raw =>
        match ApiService.framesJ raw with
        | none => DEMO_TRACE
        | some es =>
            let vf := (ApiService.mapWithIdx (fun i f => geminiRepairFrame f i) 0 es).filter
              geminiFilterPred
            if vf.isEmpty then DEMO_TRACE
            else .obj (objSet (jspread raw) "frames" (.arr vf []))
    | _ => DEMO_TRACE

end Gemini

/-! ## Backend narrator post-processing — modelled from the spec

The pipeline's own repair pass lives in `backend/app/agents/narrator.py`
(`_post_process_narrative`, highlight validation, `_shuffle_quiz_options`),
which is not under `src/`; these definitions are modelled from the
specification's description of it. -/

namespace Narrator
open JValue

/-- Modelled from the spec: one entry of "the raw execution trace the
pipeline also returns (an ordered list of variable-state snapshots)". -/
structure TraceSnapshot where
  vars : List (String × JValue)
deriving DecidableEq

/-- A snapshot is usable when it carries at least one named variable. -/
def usable (s : TraceSnapshot) : Bool := !s.vars.isEmpty

/-- Distance between two indices. -/
def natDist (a b : Nat) : Nat := (a - b) + (b - a)

/-- Modelled from the spec: "find the nearest trace index to the frame's
step" — the usable snapshot index closest to the frame's step anchored
at `min(step, len - 1)`, ties resolved to the lower index. -/
def nearestUsableIdx (trace : List TraceSnapshot) (step : Nat) : Option Nat :=
  let center := min step (trace.length - 1)
  ((List.range trace.length).filter (fun i => usable (trace.getD i ⟨[]⟩))).argmin
    (fun i => natDist i center)

/-- Modelled from the spec: the data backfill of the backend's
`_post_process_narrative` — when a frame's `data` map is empty, project
the named variables of the nearest usable raw-trace snapshot into
`data`; when no snapshot is usable, synthesize the minimal placeholder
`{"STEP": [n], "STATUS": ["processing"]}` for the frame at step `n`. -/
def backfillFrameData (step : Nat) (data : List (String × JValue))
    (rawTrace : List TraceSnapshot) : List (String × JValue) :=
  if data.isEmpty then
    match nearestUsableIdx rawTrace step with
    | some i => (rawTrace.getD i ⟨[]⟩).vars
    | none => [("STEP", .arr [.num (.finite (step : Rat))] []),
               ("STATUS", .arr [.str "processing"] [])]
  else data

/-- `h` references an indexed element of the data entry `k`: it has the
shape `k[i]` with a non-empty numeric index. -/
def isIndexedRef (k h : String) : Bool :=
  let ks := k.toList
  let hs := h.toList
  (ks ++ ['[']).isPrefixOf hs &&
    (match (hs.drop (ks.length + 1)).reverse with
     | ']' :: rev => !rev.isEmpty && rev.all Char.isDigit
     | _ => false)

/-- A highlight entry resolves against the data map when it names one of
its keys or an indexed element of one. -/
def resolvesAgainst (keys : List String) (h : String) : Bool :=
  keys.contains h || keys.any (fun k => isIndexedRef k h)

/-- Modelled from the spec: highlight validation of the backend repair —
drop every `highlights` entry that does not resolve against the
(possibly backfilled) `data` map; if all are dropped, substitute the
first `data` key as the default highlight. -/
def repairHighlights (data : List (String × JValue)) (hs : List String) : List String :=
  let keys := data.map Prod.fst
  let kept := hs.filter (resolvesAgainst keys)
  if kept.isEmpty then keys.take 1 else kept

/-- The catch-all ("end option") phrase list of the narrator. -/
def endOptionPhrases : List String :=
  ["none of the above", "all of the above", "cannot be determined",
   "skip this step", "this step is not needed", "restart the algorithm",
   "return an error", "continue without changes", "alternative approach"]

/-- An option is a catch-all when it matches one of the fixed phrases
after trimming and case folding. -/
def isCatchAll (opt : String) : Bool :=
  endOptionPhrases.contains (CacheKey.pyLower (CacheKey.pyStrip opt))

/-- The fixed distractor pool used to pad short option lists. -/
def fallbackOptionPool : List String :=
  ["None of the above", "Skip this step", "This step is not needed",
   "Cannot be determined", "All of the above", "Restart the algorithm",
   "Return an error", "Continue without changes"]

/-- A repaired quiz. -/
structure QuizT where
  question : String
  options : List String
  correct : Nat
deriving DecidableEq, Repr

/-- Modelled from the spec: pad options below the configured minimum of
four from the fixed pool, skipping phrases already present. -/
def padQuizOptions (opts : List String) : List String :=
  opts ++ (fallbackOptionPool.filter (fun p => !opts.contains p)).take (4 - opts.length)

/-- Modelled from the spec: `_shuffle_quiz_options` — pad the options,
clamp an out-of-range answer index to 0, partition the option positions
into ordinary and catch-all, permute only the ordinary positions (the
random draw is the `perm` parameter, ignored unless it is a permutation
of the ordinary positions), append every catch-all position after the
ordinary ones, and re-derive `correct` as the new position of the
option it pointed to. -/
def shuffleQuizOptions (q : QuizT) (perm : List Nat) : QuizT :=
  let opts := padQuizOptions q.options
  let correct0 := if q.correct < opts.length then q.correct else 0
  let ordIdxs := (List.range opts.length).filter (fun i => !isCatchAll (opts.getD i ""))
  let catchIdxs := (List.range opts.length).filter (fun i => isCatchAll (opts.getD i ""))
  let permuted := if perm.Perm (List.range ordIdxs.length)
                  then perm.map (fun j => ordIdxs.getD j 0) else ordIdxs
  let order := permuted ++ catchIdxs
  { question := q.question
    options := order.map (fun i => opts.getD i "")
    correct := order.indexOf correct0 }

end Narrator

namespace JValue

mutual
/-- A non-finite number (`NaN`, `Infinity`, `-Infinity`) occurs somewhere
in the value. -/
def hasNonFiniteNum : JValue → Bool
  | .num (.finite _) => false
  | .num _ => true
  | .arr es ps => hasNonFiniteNumList es || hasNonFiniteNumProps ps
  | .obj fs => hasNonFiniteNumProps fs
  | _ => false

def hasNonFiniteNumList : List JValue → Bool
  | [] => false
  | v :: vs => hasNonFiniteNum v || hasNonFiniteNumList vs

def hasNonFiniteNumProps : List (String × JValue) → Bool
  | [] => false
  | (_, v) :: kvs => hasNonFiniteNum v || hasNonFiniteNumProps kvs
end

end JValue

/-! ## Supporting lemmas -/

namespace JValue

theorem lookup_objSet_self (fs : List (String × JValue)) (k : String) (x : JValue) :
    (objSet fs k x).lookup k = some x := by
  induction fs with
  | nil => simp [objSet, List.lookup]
  | cons kv rest ih =>
      obtain ⟨k', v⟩ := kv
      by_cases h : k' = k
      · simp [objSet, h, List.lookup]
      · simp only [objSet, if_neg h, List.lookup]
        have : (k == k') = false := by
          simp [beq_iff_eq]
          exact fun hkk => h hkk.symm
        simp [this, ih]

theorem lookup_objSet_other (fs : List (String × JValue)) (k : String) (x : JValue)
    (k' : String) (hne : k' ≠ k) : (objSet fs k x).lookup k' = fs.lookup k' := by
  induction fs with
  | nil =>
      simp only [objSet, List.lookup]
      have : (k' == k) = false := by simp [beq_iff_eq]; exact hne
      simp [this]
  | cons kv rest ih =>
      obtain ⟨k0, v⟩ := kv
      by_cases h : k0 = k
      · subst h
        have h1 : (k' == k0) = false := by simp [beq_iff_eq]; exact hne
        simp [objSet, List.lookup, h1]
      · simp only [objSet, if_neg h, List.lookup]
        by_cases h2 : k' = k0
        · subst h2; simp [List.lookup]
        · have h3 : (k' == k0) = false := by simp [beq_iff_eq]; exact h2
          simp [h3, ih]

theorem objSet_eq_self {fs : List (String × JValue)} {k : String} {x : JValue}
    (h : fs.lookup k = some x) : objSet fs k x = fs := by
  induction fs with
  | nil => simp [List.lookup] at h
  | cons kv rest ih =>
      obtain ⟨k0, v⟩ := kv
      by_cases hk : k0 = k
      · subst hk
        simp only [List.lookup, beq_self_eq_true] at h
        simp only [Option.some.injEq] at h
        simp [objSet, h]
      · have h1 : (k == k0) = false := by simp [beq_iff_eq]; exact fun e => hk e.symm
        simp only [List.lookup, h1] at h
        simp [objSet, hk, ih h]

theorem lookup_mem {fs : List (String × JValue)} {k : String} {x : JValue}
    (h : fs.lookup k = some x) : (k, x) ∈ fs := by
  induction fs with
  | nil => simp [List.lookup] at h
  | cons kv rest ih =>
      obtain ⟨k0, v⟩ := kv
      by_cases hk : k = k0
      · subst hk
        simp only [List.lookup, beq_self_eq_true, Option.some.injEq] at h
        simp [h]
      · have h1 : (k == k0) = false := by simp [beq_iff_eq]; exact hk
        simp only [List.lookup, h1] at h
        exact List.mem_cons_of_mem _ (ih h)

theorem lookup_append_of_not_mem_keys {l1 l2 : List (String × JValue)} {k : String}
    (h : k ∉ l1.map Prod.fst) : (l1 ++ l2).lookup k = l2.lookup k := by
  induction l1 with
  | nil => simp
  | cons kv rest ih =>
      obtain ⟨k0, v⟩ := kv
      simp only [List.map_cons, List.mem_cons] at h
      push_neg at h
      have h1 : (k == k0) = false := by simp [beq_iff_eq]; exact h.1
      simp only [List.cons_append, List.lookup, h1]
      exact ih h.2
end JValue

namespace JValue

theorem digitChar_isDigit : ∀ m : Nat, m < 10 → (Nat.digitChar m).isDigit = true := by
  decide

theorem toDigitsCore_all_digit :
    ∀ (fuel n : Nat) (ds : List Char), (∀ c ∈ ds, c.isDigit = true) →
      ∀ c ∈ Nat.toDigitsCore 10 fuel n ds, c.isDigit = true := by
  intro fuel
  induction fuel with
  | zero => intro n ds hds c hc; exact hds c hc
  | succ f ih =>
      intro n ds hds c hc
      rw [Nat.toDigitsCore] at hc
      by_cases h : n / 10 = 0
      · simp only [h, if_pos rfl] at hc
        rcases List.mem_cons.mp hc with h1 | h1
        · subst h1; exact digitChar_isDigit _ (Nat.mod_lt _ (by norm_num))
        · exact hds c h1
      · simp only [if_neg h] at hc
        refine ih (n / 10) _ ?_ c hc
        intro c' hc'
        rcases List.mem_cons.mp hc' with h1 | h1
        · subst h1; exact digitChar_isDigit _ (Nat.mod_lt _ (by norm_num))
        · exact hds c' h1

theorem toString_nat_all_digit (n : Nat) :
    (toString n).toList.all Char.isDigit = true := by
  rw [List.all_eq_true]
  intro c hc
  have : (toString n) = (Nat.toDigits 10 n).asString := rfl
  rw [this] at hc
  have hl : (Nat.toDigits 10 n).asString.toList = Nat.toDigits 10 n := rfl
  rw [hl] at hc
  exact toDigitsCore_all_digit _ _ [] (by simp) c hc

/-- A fixed property name containing a non-digit character is never an
array index key. -/
theorem natKey_ne {s : String} (h : s.toList.all Char.isDigit = false) (n : Nat) :
    toString n ≠ s := by
  intro he
  rw [← he] at h
  rw [toString_nat_all_digit n] at h
  simp at h

/-- Reading a non-numeric name from an array goes to its expandos. -/
theorem lookup_arr_eq_props (elems : List JValue) (props : List (String × JValue))
    {k : String} (hk : k.toList.all Char.isDigit = false) :
    (jfields (.arr elems props)).lookup k = props.lookup k := by
  unfold jfields
  refine lookup_append_of_not_mem_keys ?_
  intro hmem
  simp only [List.map_map, List.mem_map] at hmem
  obtain ⟨p, _, hp⟩ := hmem
  exact natKey_ne hk p.1 hp

theorem jgetD_arr (elems : List JValue) (props : List (String × JValue))
    {k : String} (hk : k.toList.all Char.isDigit = false) :
    jgetD (.arr elems props) k = (props.lookup k).getD .undef := by
  unfold jgetD
  rw [lookup_arr_eq_props elems props hk]

/-- A successful property write lands on an object or an array. -/
theorem setProp_ok_shape {v : JValue} {k : String} {x w : JValue}
    (h : setProp v k x = .ok w) :
    (∃ fs, v = .obj fs ∧ w = .obj (objSet fs k x))
    ∨ ∃ es ps, v = .arr es ps ∧ w = .arr es (objSet ps k x) := by
  cases v <;> simp [setProp] at h
  case obj fs => exact Or.inl ⟨fs, rfl, h.symm⟩
  case arr es ps => exact Or.inr ⟨es, ps, rfl, h.symm⟩

theorem jgetD_setProp_self {v : JValue} {k : String} {x w : JValue}
    (hk : k.toList.all Char.isDigit = false) (h : setProp v k x = .ok w) :
    jgetD w k = x := by
  rcases setProp_ok_shape h with ⟨fs, _, hw⟩ | ⟨es, ps, _, hw⟩
  · subst hw; unfold jgetD jfields; rw [lookup_objSet_self]; rfl
  · subst hw; rw [jgetD_arr _ _ hk, lookup_objSet_self]; rfl

theorem jgetD_setProp_other {v : JValue} {k : String} {x w : JValue} {k' : String}
    (hk' : k'.toList.all Char.isDigit = false) (hne : k' ≠ k)
    (h : setProp v k x = .ok w) : jgetD w k' = jgetD v k' := by
  rcases setProp_ok_shape h with ⟨fs, hv, hw⟩ | ⟨es, ps, hv, hw⟩
  · subst hv hw; unfold jgetD jfields; rw [lookup_objSet_other _ _ _ _ hne]
  · subst hv hw
    rw [jgetD_arr _ _ hk', jgetD_arr _ _ hk', lookup_objSet_other _ _ _ _ hne]

/-- Writing back the value a property already holds is the identity. -/
theorem setProp_eq_self {v : JValue} {k : String} {x : JValue}
    (hk : k.toList.all Char.isDigit = false)
    (hobj : (v matches .obj _) ∨ (v matches .arr _ _))
    (hsome : jgetD v k = x) (hx : x ≠ .undef) : setProp v k x = .ok v := by
  rcases hobj with hv | hv
  · match v, hv with
    | .obj fs, _ =>
        unfold jgetD jfields at hsome
        cases hl : fs.lookup k with
        | none => rw [hl] at hsome; simp at hsome; exact absurd hsome.symm hx
        | some y =>
            rw [hl] at hsome; simp at hsome; subst hsome
            simp [setProp, objSet_eq_self hl]
  · match v, hv with
    | .arr es ps, _ =>
        rw [jgetD_arr _ _ hk] at hsome
        cases hl : ps.lookup k with
        | none => rw [hl] at hsome; simp at hsome; exact absurd hsome.symm hx
        | some y =>
            rw [hl] at hsome; simp at hsome; subst hsome
            simp [setProp, objSet_eq_self hl]

end JValue

namespace JValue

theorem sanitizeValue_depth_gt {v : JValue} {d : Nat} (h : 10 < d) :
    sanitizeValue v d = .str "[Max Depth]" := by
  unfold sanitizeValue
  simp [h]

mutual
theorem sanitizeValue_idem : ∀ (v : JValue) (d : Nat),
    sanitizeValue (sanitizeValue v d) d = sanitizeValue v d
  | .null, d => by by_cases h : d > 10 <;> simp [sanitizeValue, h]
  | .undef, d => by by_cases h : d > 10 <;> simp [sanitizeValue, h]
  | .bool b, d => by by_cases h : d > 10 <;> simp [sanitizeValue, h]
  | .str s, d => by by_cases h : d > 10 <;> simp [sanitizeValue, h]
  | .num n, d => by
      by_cases h : d > 10
      · simp [sanitizeValue, h]
      · cases n <;> simp [sanitizeValue, h]
  | .arr elems props, d => by
      by_cases h : d > 10
      · simp [sanitizeValue, h]
      · simp [sanitizeValue, h, sanitizeList_idem elems (d + 1)]
  | .obj fields, d => by
      by_cases h : d > 10
      · simp [sanitizeValue, h]
      · simp [sanitizeValue, h, sanitizeFields_idem fields (d + 1)]

theorem sanitizeList_idem : ∀ (l : List JValue) (d : Nat),
    sanitizeList (sanitizeList l d) d = sanitizeList l d
  | [], _ => rfl
  | v :: vs, d => by
      simp [sanitizeList, sanitizeValue_idem v d, sanitizeList_idem vs d]

theorem sanitizeFields_idem : ∀ (l : List (String × JValue)) (d : Nat),
    sanitizeFields (sanitizeFields l d) d = sanitizeFields l d
  | [], _ => rfl
  | (k, v) :: kvs, d => by
      simp [sanitizeFields, sanitizeValue_idem v d, sanitizeFields_idem kvs d]
end

mutual
theorem hasNonFiniteNum_sanitize : ∀ (v : JValue) (d : Nat),
    hasNonFiniteNum (sanitizeValue v d) = false
  | .null, d => by by_cases h : d > 10 <;> simp [sanitizeValue, h, hasNonFiniteNum]
  | .undef, d => by by_cases h : d > 10 <;> simp [sanitizeValue, h, hasNonFiniteNum]
  | .bool b, d => by by_cases h : d > 10 <;> simp [sanitizeValue, h, hasNonFiniteNum]
  | .str s, d => by by_cases h : d > 10 <;> simp [sanitizeValue, h, hasNonFiniteNum]
  | .num n, d => by
      by_cases h : d > 10
      · simp [sanitizeValue, h, hasNonFiniteNum]
      · cases n <;> simp [sanitizeValue, h, hasNonFiniteNum]
  | .arr elems props, d => by
      by_cases h : d > 10
      · simp [sanitizeValue, h, hasNonFiniteNum]
      · simp [sanitizeValue, h, hasNonFiniteNum, hasNonFiniteNumList_sanitize elems (d + 1),
          hasNonFiniteNumProps]
  | .obj fields, d => by
      by_cases h : d > 10
      · simp [sanitizeValue, h, hasNonFiniteNum]
      · simp [sanitizeValue, h, hasNonFiniteNum, hasNonFiniteNumProps_sanitize fields (d + 1)]

theorem hasNonFiniteNumList_sanitize : ∀ (l : List JValue) (d : Nat),
    hasNonFiniteNumList (sanitizeList l d) = false
  | [], _ => rfl
  | v :: vs, d => by
      simp [sanitizeList, hasNonFiniteNumList, hasNonFiniteNum_sanitize v d,
        hasNonFiniteNumList_sanitize vs d]

theorem hasNonFiniteNumProps_sanitize : ∀ (l : List (String × JValue)) (d : Nat),
    hasNonFiniteNumProps (sanitizeFields l d) = false
  | [], _ => rfl
  | (k, v) :: kvs, d => by
      simp [sanitizeFields, hasNonFiniteNumProps, hasNonFiniteNum_sanitize v d,
        hasNonFiniteNumProps_sanitize kvs d]
end

/-- Sanitizing within the depth bound keeps the object/array shape. -/
theorem sanitizeValue_shape {v : JValue} {d : Nat} (hd : ¬ 10 < d)
    (hv : (v matches .obj _) ∨ (v matches .arr _ _)) :
    ((sanitizeValue v d) matches .obj _) ∨ ((sanitizeValue v d) matches .arr _ _) := by
  rcases hv with hv | hv
  · match v, hv with
    | .obj fs, _ => left; simp [sanitizeValue, hd]
  · match v, hv with
    | .arr es ps, _ => right; simp [sanitizeValue, hd]

end JValue

namespace JValue

theorem isJsonProps_mem : ∀ {fs : List (String × JValue)}, isJsonProps fs = true →
    ∀ kv ∈ fs, isJson kv.2 = true := by
  intro fs
  induction fs with
  | nil => intro _ kv h; simp at h
  | cons kv rest ih =>
      obtain ⟨k, v⟩ := kv
      intro h kv' hkv'
      rw [isJsonProps, Bool.and_eq_true] at h
      rcases List.mem_cons.mp hkv' with h1 | h1
      · subst h1; exact h.1
      · exact ih h.2 kv' h1

theorem isJsonList_mem : ∀ {l : List JValue}, isJsonList l = true →
    ∀ v ∈ l, isJson v = true := by
  intro l
  induction l with
  | nil => intro _ v h; simp at h
  | cons w rest ih =>
      intro h v hv
      rw [isJsonList, Bool.and_eq_true] at h
      rcases List.mem_cons.mp hv with h1 | h1
      · subst h1; exact h.1
      · exact ih h.2 v h1

/-- Any property of a JSON value is JSON or absent. -/
theorem isJson_jgetD {v : JValue} (k : String) (hv : isJson v = true) :
    isJson (jgetD v k) = true ∨ jgetD v k = .undef := by
  unfold jgetD
  cases hl : (jfields v).lookup k with
  | none => right; rfl
  | some w =>
      left
      have hmem := lookup_mem hl
      match v with
      | .null | .undef | .bool _ | .num _ => simp [jfields] at hmem
      | .str s =>
          simp only [jfields, List.mem_map] at hmem
          obtain ⟨p, _, hp⟩ := hmem
          have : w = .str (String.singleton p.2) := congrArg Prod.snd hp.symm
          subst this
          simp [isJson]
      | .obj fs =>
          exact isJsonProps_mem hv (k, w) hmem
      | .arr es ps =>
          rw [isJson, Bool.and_eq_true] at hv
          have hps : ps = [] := by
            cases ps with
            | nil => rfl
            | cons a l => simp [List.isEmpty] at hv
          subst hps
          simp only [jfields, List.append_nil, List.mem_map] at hmem
          obtain ⟨p, hpmem, hp⟩ := hmem
          have hw : w = p.2 := congrArg Prod.snd hp.symm
          subst hw
          exact isJsonList_mem hv.2 p.2 (List.snd_mem_of_mem_enum hpmem)

/-- Sanitizing (within the bound) fixes the values `stepNum + 1` takes on
JSON input. -/
theorem sanitize_jsAddOne {v : JValue} {d : Nat} (hd : ¬ 10 < d) (hv : isJson v = true) :
    sanitizeValue (jsAddOne v) d = jsAddOne v := by
  match v with
  | .null => simp [jsAddOne, jsToNumber, sanitizeValue, hd]
  | .undef => simp [isJson] at hv
  | .bool b => cases b <;> simp [jsAddOne, jsToNumber, sanitizeValue, hd]
  | .num n =>
      match n with
      | .finite q => simp [jsAddOne, jsToNumber, sanitizeValue, hd]
      | .nan | .inf | .negInf => simp [isJson] at hv
  | .str s => simp [jsAddOne, sanitizeValue, hd]
  | .arr es ps => simp [jsAddOne, sanitizeValue, hd]
  | .obj fs => simp [jsAddOne, sanitizeValue, hd]

theorem dedupKeys_nil_iff {l : List String} : dedupKeys [] l = [] ↔ l = [] := by
  cases l with
  | nil => simp [dedupKeys]
  | cons k ks => simp [dedupKeys]

theorem jKeyCount_zero_iff {v : JValue} : jKeyCount v = 0 ↔ jfields v = [] := by
  unfold jKeyCount jKeys
  rw [List.length_eq_zero, dedupKeys_nil_iff, List.map_eq_nil_iff]

theorem jKeyCount_pos_iff {v : JValue} : 0 < jKeyCount v ↔ jfields v ≠ [] := by
  rw [Nat.pos_iff_ne_zero, not_iff_not.symm]
  simp [jKeyCount_zero_iff]

end JValue

/-! ## Claim theorems -/

/-- **C10**: `sanitizeValue` is total on every JSON-like input: beyond
depth 10 it returns the string `[Max Depth]` (so the recursion is
bounded on arbitrarily deep input), its output never contains a
non-finite number, and within the bound a `NaN`/`Infinity`/`-Infinity`
leaf is replaced by its string form. -/
theorem C10_sanitizeValue_bounded_and_finite :
    (∀ (v : JValue) (d : Nat), 10 < d → JValue.sanitizeValue v d = .str "[Max Depth]")
    ∧ (∀ (v : JValue) (d : Nat), JValue.hasNonFiniteNum (JValue.sanitizeValue v d) = false)
    ∧ (∀ (n : JNum) (d : Nat), d ≤ 10 → (n = .nan ∨ n = .inf ∨ n = .negInf) →
        JValue.sanitizeValue (.num n) d = .str (JValue.numToString n)) := by
  refine ⟨fun v d h => JValue.sanitizeValue_depth_gt h,
          fun v d => JValue.hasNonFiniteNum_sanitize v d, ?_⟩
  intro n d hd hn
  have h' : ¬ 10 < d := by omega
  rcases hn with h | h | h <;> subst h <;> simp [JValue.sanitizeValue, h']

theorem C10_witness :
    JValue.sanitizeValue (.obj [("x", .num .nan)]) 11 = .str "[Max Depth]"
    ∧ JValue.hasNonFiniteNum (JValue.sanitizeValue (.obj [("x", .num .inf)]) 0) = false
    ∧ JValue.sanitizeValue (.num .nan) 3 = .str (JValue.numToString .nan) :=
  ⟨C10_sanitizeValue_bounded_and_finite.1 _ 11 (by decide),
   C10_sanitizeValue_bounded_and_finite.2.1 _ 0,
   C10_sanitizeValue_bounded_and_finite.2.2 .nan 3 (by decide) (Or.inl rfl)⟩

/-- **C8**: both external pipeline invocations are wrapped in a bounded
timeout (120 s for analyze, 180 s for learn); when the bound fires the
aborted call produces a timeout error — no trace value is returned. -/
theorem C8_bounded_timeout_errors :
    ApiService.analyzeRun .aborted = .error .timeout
    ∧ ApiService.learnRun .aborted = .error .timeout
    ∧ ApiService.analyzeErrorMessage .timeout = "Backend timed out."
    ∧ ApiService.learnErrorMessage .timeout = "Learning mode timed out."
    ∧ ApiService.analyzeTimeoutMs = 120000
    ∧ ApiService.learnTimeoutMs = 180000 :=
  ⟨rfl, rfl, rfl, rfl, rfl, rfl⟩

/-- **C2**: `generate_cache_key` is deterministic under trimming/case
folding of the problem text and permutation of the constraints, and is a
function of only those two inputs (its signature carries no session or
credential). -/
theorem C2_cache_key_deterministic (t t' : String) (cs cs' : List String)
    (htext : CacheKey.pyLower (CacheKey.pyStrip t) = CacheKey.pyLower (CacheKey.pyStrip t'))
    (hperm : cs.Perm cs') :
    CacheKey.generate_cache_key t cs = CacheKey.generate_cache_key t' cs' := by
  have hsort : CacheKey.sortedStrings cs = CacheKey.sortedStrings cs' := by
    have hs1 : List.Sorted (· ≤ ·) (CacheKey.sortedStrings cs) :=
      List.sorted_insertionSort (· ≤ ·) cs
    have hs2 : List.Sorted (· ≤ ·) (CacheKey.sortedStrings cs') :=
      List.sorted_insertionSort (· ≤ ·) cs'
    have hp : (CacheKey.sortedStrings cs).Perm (CacheKey.sortedStrings cs') :=
      (List.perm_insertionSort _ cs).trans (hperm.trans (List.perm_insertionSort _ cs').symm)
    exact List.eq_of_perm_of_sorted hp hs1 hs2
  unfold CacheKey.generate_cache_key
  rw [htext, hsort]

theorem C2_witness :
    CacheKey.pyLower (CacheKey.pyStrip "  Two Sum ") = CacheKey.pyLower (CacheKey.pyStrip "two sum")
    ∧ List.Perm ["b", "a"] ["a", "b"]
    ∧ CacheKey.generate_cache_key "  Two Sum " ["b", "a"]
      = CacheKey.generate_cache_key "two sum" ["a", "b"] :=
  ⟨by decide, by decide, C2_cache_key_deterministic _ _ _ _ (by decide) (by decide)⟩

/-- **C9**: `generateAlgorithmTrace` never propagates a failure — it is a
total function whose result always carries a non-empty frames list, and
on any failure (missing/short API key, transport error, empty or
unparseable response) it returns the fixed `DEMO_TRACE`. -/
theorem C9_generateAlgorithmTrace_total_nonempty :
    ∀ (apiKey : Option String) (oc : Gemini.ModelOutcome),
      0 < (ApiService.traceFrames (Gemini.generateAlgorithmTrace apiKey oc)).length
      ∧ Gemini.generateAlgorithmTrace apiKey .transportError = Gemini.DEMO_TRACE
      ∧ Gemini.generateAlgorithmTrace none oc = Gemini.DEMO_TRACE := by
  have hdemo : 0 < (ApiService.traceFrames Gemini.DEMO_TRACE).length := by decide
  intro apiKey oc
  refine ⟨?_, ?_, ?_⟩
  · unfold Gemini.generateAlgorithmTrace
    by_cases hk : Gemini.apiKeyInvalid apiKey
    · simp [hk, hdemo]
    · simp only [hk, Bool.false_eq_true, if_false]
      cases oc with
      | transportError => exact hdemo
      | emptyText => exact hdemo
      | parseFailed => exact hdemo
      | parsed raw =>
          cases hfr : ApiService.framesJ raw with
          | none => simpa [hfr] using hdemo
          | some es =>
              simp only [hfr]
              set vf := (ApiService.mapWithIdx (fun i f => Gemini.geminiRepairFrame f i) 0 es).filter
                Gemini.geminiFilterPred with hvf
              by_cases he : vf.isEmpty
              · simp [he, hdemo]
              · simp only [he, Bool.false_eq_true, if_false]
                have hj : JValue.jgetD
                    (.obj (JValue.objSet (JValue.jspread raw) "frames" (.arr vf [])))
                    "frames" = .arr vf [] := by
                  unfold JValue.jgetD JValue.jfields
                  rw [JValue.lookup_objSet_self]
                  rfl
                have htf : ApiService.traceFrames
                    (.obj (JValue.objSet (JValue.jspread raw) "frames" (.arr vf []))) = vf := by
                  unfold ApiService.traceFrames
                  rw [hj]
                rw [htf]
                cases hv : vf with
                | nil => rw [hv] at he; simp at he
                | cons a l => simp
  · unfold Gemini.generateAlgorithmTrace
    by_cases hk : Gemini.apiKeyInvalid apiKey <;> simp [hk]
  · rfl

/-- **C1**: a trace returned by the analyze-response processing always
has a non-empty frames list in which every frame's `state.data` map has
at least one key; when no frame survives the repair with non-empty data,
the operation fails with an error instead of returning a trace. -/
theorem C1_trace_invariant (data t : JValue) :
    (ApiService.analyzeProcess data = .ok t →
      ApiService.traceFrames t ≠ []
      ∧ ∀ f ∈ ApiService.traceFrames t,
          0 < JValue.jKeyCount (JValue.jgetD (JValue.jgetD f "state") "data"))
    ∧ (ApiService.validFramesOf data = some [] →
       ApiService.analyzeProcess data = .error .noValidFrames) := by
  constructor
  · intro h
    unfold ApiService.analyzeProcess at h
    cases hv : ApiService.validFramesOf data with
    | none =>
        rw [hv] at h
        exact absurd (show (Except.error ApiService.AnalyzeError.typeError :
          Except ApiService.AnalyzeError JValue) = .ok t from h) (fun hh => nomatch hh)
    | some vf =>
      rw [hv] at h
      cases vf with
      | nil =>
          exact absurd (show (Except.error ApiService.AnalyzeError.noValidFrames :
            Except ApiService.AnalyzeError JValue) = .ok t from h) (fun hh => nomatch hh)
      | cons f0 rest =>
      have h2 : Except.ok (JValue.obj (JValue.objSet (JValue.jspread data) "frames"
          (.arr (f0 :: rest) []))) = Except.ok t := h
      have h : JValue.obj (JValue.objSet (JValue.jspread data) "frames"
          (.arr (f0 :: rest) [])) = t := Except.ok.inj h2
      have hj : JValue.jgetD t "frames" = .arr (f0 :: rest) [] := by
        rw [← h]
        unfold JValue.jgetD JValue.jfields
        rw [JValue.lookup_objSet_self]
        rfl
      have htf : ApiService.traceFrames t = f0 :: rest := by
        unfold ApiService.traceFrames
        rw [hj]
      refine ⟨by rw [htf]; exact List.cons_ne_nil _ _, ?_⟩
      intro f hf
      rw [htf] at hf
      -- membership in the filtered list gives the filter predicate
      unfold ApiService.validFramesOf at hv
      cases hr : ApiService.repairedFramesOf data with
      | none => rw [hr] at hv; exact absurd hv (by simp)
      | some rf =>
          rw [hr] at hv
          simp only [Option.map] at hv
          injection hv with hv
          have hfmem : f ∈ rf.filter ApiService.frameFilterPred := by
            rw [hv]; exact hf
          have hpred := (List.mem_filter.mp hfmem).2
          unfold ApiService.frameFilterPred at hpred
          simp only [Bool.and_eq_true, decide_eq_true_eq] at hpred
          exact hpred.2
  · intro h
    unfold ApiService.analyzeProcess
    rw [h]

theorem C1_witness :
    ApiService.traceFrames (.obj [("title", .str "T"),
      ("frames", .arr [.obj [("step_id", .num (.finite 0)), ("commentary", .str "start"),
        ("state", .obj [("visual_type", .str "array"),
                        ("data", .obj [("nums", .arr [.num (.finite 2), .num (.finite 7)] [])]),
                        ("highlights", .arr [.str "nums"] [])]),
        ("quiz", .null)]] [])]) ≠ []
    ∧ ∀ f ∈ ApiService.traceFrames (.obj [("title", .str "T"),
      ("frames", .arr [.obj [("step_id", .num (.finite 0)), ("commentary", .str "start"),
        ("state", .obj [("visual_type", .str "array"),
                        ("data", .obj [("nums", .arr [.num (.finite 2), .num (.finite 7)] [])]),
                        ("highlights", .arr [.str "nums"] [])]),
        ("quiz", .null)]] [])]),
        0 < JValue.jKeyCount (JValue.jgetD (JValue.jgetD f "state") "data") :=
  (C1_trace_invariant (.obj [("title", .str "T"),
      ("frames", .arr [.obj [("step_id", .num (.finite 0)), ("commentary", .str "start"),
        ("state", .obj [("visual_type", .str "array"),
                        ("data", .obj [("nums", .arr [.num (.finite 2), .num (.finite 7)] [])]),
                        ("highlights", .arr [.str "nums"] [])]),
        ("quiz", .null)]] [])]) _).1 rfl

/-- **C6**: the quiz repair coerces a missing (`undefined`/`null`) or
non-numeric (`Number(...)` is `NaN`) `correct` to `0`, and preserves a
present numeric `correct` (as the number it coerces to). -/
theorem C6_quiz_correct_coercion (fs : List (String × JValue)) (q2 : JValue)
    (h : ApiService.fixQuizCorrect (.obj fs) = .ok q2) :
    ((JValue.jgetD (.obj fs) "correct" = .undef ∨ JValue.jgetD (.obj fs) "correct" = .null ∨
        JValue.jsToNumber (JValue.jgetD (.obj fs) "correct") = .nan) →
      JValue.jgetD q2 "correct" = .num (.finite 0))
    ∧ (∀ n : JNum, JValue.jgetD (.obj fs) "correct" = .num n → n ≠ .nan →
        JValue.jgetD q2 "correct" = .num n)
    ∧ (JValue.jgetD (.obj fs) "correct" ≠ .undef → JValue.jgetD (.obj fs) "correct" ≠ .null →
        JValue.jsToNumber (JValue.jgetD (.obj fs) "correct") ≠ .nan →
        JValue.jgetD q2 "correct" = .num (JValue.jsToNumber (JValue.jgetD (.obj fs) "correct"))) := by
  have hget : ∀ x : JValue, q2 = .obj (JValue.objSet fs "correct" x) →
      JValue.jgetD q2 "correct" = x := by
    intro x hq
    subst hq
    unfold JValue.jgetD JValue.jfields
    rw [JValue.lookup_objSet_self]
    rfl
  unfold ApiService.fixQuizCorrect at h
  cases hc : JValue.jgetD (.obj fs) "correct" with
  | undef =>
      rw [hc] at h
      simp only [JValue.setProp, Except.ok.injEq] at h
      refine ⟨fun _ => hget _ h.symm, ?_, ?_⟩
      · intro n hn; exact absurd hn (by simp)
      · intro h1; exact absurd rfl h1
  | null =>
      rw [hc] at h
      simp only [JValue.setProp, Except.ok.injEq] at h
      refine ⟨fun _ => hget _ h.symm, ?_, ?_⟩
      · intro n hn; exact absurd hn (by simp)
      · intro _ h1; exact absurd rfl h1
  | bool b =>
      rw [hc] at h
      by_cases hn : JValue.jsToNumber (.bool b) = .nan
      · have hm : (JValue.jsToNumber (.bool b) matches JNum.nan) = true := by
          rw [hn]
        simp only [hm, if_true, JValue.setProp, Except.ok.injEq] at h
        refine ⟨fun _ => hget _ h.symm, ?_, ?_⟩
        · intro n h1; exact absurd h1 (by simp)
        · intro _ _ h1; exact absurd hn h1
      · have hm : (JValue.jsToNumber (.bool b) matches JNum.nan) = false := by
          cases he : JValue.jsToNumber (.bool b) <;> simp_all
        simp only [hm, Bool.false_eq_true, if_false, JValue.setProp, Except.ok.injEq] at h
        refine ⟨?_, ?_, fun _ _ _ => hget _ h.symm⟩
        · intro h1
          rcases h1 with h1 | h1 | h1 <;>
            first
              | exact absurd h1 (by simp)
              | exact absurd h1 hn
        · intro n h1; exact absurd h1 (by simp)
  | num m =>
      rw [hc] at h
      by_cases hn : JValue.jsToNumber (.num m) = .nan
      · have hm : (JValue.jsToNumber (.num m) matches JNum.nan) = true := by
          rw [hn]
        simp only [hm, if_true, JValue.setProp, Except.ok.injEq] at h
        refine ⟨fun _ => hget _ h.symm, ?_, ?_⟩
        · intro n h1 h2
          simp only [JValue.num.injEq] at h1
          subst h1
          exact absurd (show m = JNum.nan from hn) h2
        · intro _ _ h1; exact absurd hn h1
      · have hm : (JValue.jsToNumber (.num m) matches JNum.nan) = false := by
          cases he : JValue.jsToNumber (.num m) <;> simp_all
        simp only [hm, Bool.false_eq_true, if_false, JValue.setProp, Except.ok.injEq] at h
        refine ⟨?_, ?_, fun _ _ _ => hget _ h.symm⟩
        · intro h1
          rcases h1 with h1 | h1 | h1 <;>
            first
              | exact absurd h1 (by simp)
              | exact absurd h1 hn
        · intro n h1 h2
          simp only [JValue.num.injEq] at h1
          subst h1
          exact hget _ h.symm
  | str s =>
      rw [hc] at h
      by_cases hn : JValue.jsToNumber (.str s) = .nan
      · have hm : (JValue.jsToNumber (.str s) matches JNum.nan) = true := by
          rw [hn]
        simp only [hm, if_true, JValue.setProp, Except.ok.injEq] at h
        refine ⟨fun _ => hget _ h.symm, ?_, ?_⟩
        · intro n h1; exact absurd h1 (by simp)
        · intro _ _ h1; exact absurd hn h1
      · have hm : (JValue.jsToNumber (.str s) matches JNum.nan) = false := by
          cases he : JValue.jsToNumber (.str s) <;> simp_all
        simp only [hm, Bool.false_eq_true, if_false, JValue.setProp, Except.ok.injEq] at h
        refine ⟨?_, ?_, fun _ _ _ => hget _ h.symm⟩
        · intro h1
          rcases h1 with h1 | h1 | h1 <;>
            first
              | exact absurd h1 (by simp)
              | exact absurd h1 hn
        · intro n h1; exact absurd h1 (by simp)
  | arr es ps =>
      rw [hc] at h
      by_cases hn : JValue.jsToNumber (.arr es ps) = .nan
      · have hm : (JValue.jsToNumber (.arr es ps) matches JNum.nan) = true := by
          rw [hn]
        simp only [hm, if_true, JValue.setProp, Except.ok.injEq] at h
        refine ⟨fun _ => hget _ h.symm, ?_, ?_⟩
        · intro n h1; exact absurd h1 (by simp)
        · intro _ _ h1; exact absurd hn h1
      · have hm : (JValue.jsToNumber (.arr es ps) matches JNum.nan) = false := by
          cases he : JValue.jsToNumber (.arr es ps) <;> simp_all
        simp only [hm, Bool.false_eq_true, if_false, JValue.setProp, Except.ok.injEq] at h
        refine ⟨?_, ?_, fun _ _ _ => hget _ h.symm⟩
        · intro h1
          rcases h1 with h1 | h1 | h1 <;>
            first
              | exact absurd h1 (by simp)
              | exact absurd h1 hn
        · intro n h1; exact absurd h1 (by simp)
  | obj fs2 =>
      rw [hc] at h
      have hn : JValue.jsToNumber (.obj fs2) = .nan := rfl
      have hm : (JValue.jsToNumber (.obj fs2) matches JNum.nan) = true := by rw [hn]
      simp only [hm, if_true, JValue.setProp, Except.ok.injEq] at h
      refine ⟨fun _ => hget _ h.symm, ?_, ?_⟩
      · intro n h1; exact absurd h1 (by simp)
      · intro _ _ h1; exact absurd hn h1

theorem C6_witness :
    JValue.jgetD (.obj [("question", .str "Q"),
      ("options", .arr [.str "A", .str "B"] []), ("correct", .num (.finite 1))]) "correct"
      = .num (JValue.jsToNumber (JValue.jgetD (.obj [("question", .str "Q"),
          ("options", .arr [.str "A", .str "B"] []), ("correct", .str "1")]) "correct")) :=
  (C6_quiz_correct_coercion [("question", .str "Q"),
      ("options", .arr [.str "A", .str "B"] []), ("correct", .str "1")]
    (.obj [("question", .str "Q"), ("options", .arr [.str "A", .str "B"] []),
      ("correct", .num (.finite 1))])
    rfl).2.2 (by decide) (by decide) (by decide)

/-- **C4** (spec-modelled): when a frame's `data` is empty and the raw
execution trace has a usable snapshot, the repair fills `data` with the
named variables of the nearest usable snapshot (so `data` is non-empty
and comes from the trace); only when no snapshot is usable does it
synthesize the placeholder `{"STEP": [n], "STATUS": ["processing"]}` for
the frame at step `n`. -/
theorem C4_backfill_from_trace (step : Nat) (data : List (String × JValue))
    (trace : List Narrator.TraceSnapshot) (hdata : data = []) :
    ((∃ s ∈ trace, Narrator.usable s = true) →
      ∃ i, i < trace.length ∧ Narrator.nearestUsableIdx trace step = some i ∧
        Narrator.usable (trace.getD i ⟨[]⟩) = true ∧
        Narrator.backfillFrameData step data trace = (trace.getD i ⟨[]⟩).vars ∧
        Narrator.backfillFrameData step data trace ≠ [] ∧
        (∀ j, j < trace.length → Narrator.usable (trace.getD j ⟨[]⟩) = true →
          Narrator.natDist i (min step (trace.length - 1)) ≤
            Narrator.natDist j (min step (trace.length - 1))))
    ∧ ((∀ s ∈ trace, Narrator.usable s = false) →
      Narrator.backfillFrameData step data trace =
        [("STEP", .arr [.num (.finite (step : Rat))] []),
         ("STATUS", .arr [.str "processing"] [])]) := by
  subst hdata
  constructor
  · rintro ⟨s, hs, hus⟩
    set center := min step (trace.length - 1) with hcenter
    set cand := (List.range trace.length).filter
      (fun i => Narrator.usable (trace.getD i ⟨[]⟩)) with hcand
    have hcand_ne : cand ≠ [] := by
      obtain ⟨j, hj, hjs⟩ := List.mem_iff_getElem.mp hs
      have hgd : trace.getD j ⟨[]⟩ = s := by
        rw [List.getD_eq_getElem?_getD, List.getElem?_eq_getElem hj]
        simpa using hjs
      have hjc : j ∈ cand := by
        rw [hcand]
        refine List.mem_filter.mpr ⟨List.mem_range.mpr hj, ?_⟩
        show Narrator.usable (trace.getD j ⟨[]⟩) = true
        rw [hgd]; exact hus
      exact List.ne_nil_of_mem hjc
    cases hargmin : cand.argmin (fun i => Narrator.natDist i center) with
    | none => exact absurd (List.argmin_eq_none.mp hargmin) hcand_ne
    | some i =>
        have hi_mem : i ∈ cand := List.argmin_mem hargmin
        have hi_range : i < trace.length :=
          List.mem_range.mp (List.mem_filter.mp hi_mem).1
        have hi_usable : Narrator.usable (trace.getD i ⟨[]⟩) = true := by
          have := (List.mem_filter.mp hi_mem).2
          simpa using this
        have hnear : Narrator.nearestUsableIdx trace step = some i := by
          unfold Narrator.nearestUsableIdx
          rw [← hcenter, ← hcand]
          exact hargmin
        have hback : Narrator.backfillFrameData step [] trace = (trace.getD i ⟨[]⟩).vars := by
          unfold Narrator.backfillFrameData
          rw [hnear]
          rfl
        refine ⟨i, hi_range, hnear, hi_usable, hback, ?_, ?_⟩
        · rw [hback]
          intro hnil
          rw [Narrator.usable, hnil] at hi_usable
          simp at hi_usable
        · intro j hj hju
          have hj_mem : j ∈ cand := by
            rw [hcand]
            refine List.mem_filter.mpr ⟨List.mem_range.mpr hj, ?_⟩
            show Narrator.usable (trace.getD j ⟨[]⟩) = true
            exact hju
          exact List.le_of_mem_argmin hj_mem hargmin
  · intro hall
    have hcand_nil : (List.range trace.length).filter
        (fun i => Narrator.usable (trace.getD i ⟨[]⟩)) = [] := by
      rw [List.filter_eq_nil_iff]
      intro j hj
      have hjlt := List.mem_range.mp hj
      have hmem2 : trace.getD j ⟨[]⟩ ∈ trace := by
        rw [List.getD_eq_getElem?_getD, List.getElem?_eq_getElem hjlt]
        exact List.getElem_mem _
      show ¬ Narrator.usable (trace.getD j ⟨[]⟩) = true
      rw [hall _ hmem2]
      simp
    unfold Narrator.backfillFrameData Narrator.nearestUsableIdx
    rw [hcand_nil]
    rfl

theorem C4_witness :
    ∃ i, i < 2 ∧
      Narrator.nearestUsableIdx [⟨[]⟩, ⟨[("x", JValue.num (.finite 1))]⟩] 5 = some i ∧
      Narrator.usable ([⟨[]⟩, ⟨[("x", JValue.num (.finite 1))]⟩].getD
        (α := Narrator.TraceSnapshot) i ⟨[]⟩) = true ∧
      Narrator.backfillFrameData 5 [] [⟨[]⟩, ⟨[("x", JValue.num (.finite 1))]⟩]
        = ([⟨[]⟩, ⟨[("x", JValue.num (.finite 1))]⟩].getD
            (α := Narrator.TraceSnapshot) i ⟨[]⟩).vars ∧
      Narrator.backfillFrameData 5 [] [⟨[]⟩, ⟨[("x", JValue.num (.finite 1))]⟩] ≠ [] ∧
      (∀ j, j < 2 → Narrator.usable ([⟨[]⟩, ⟨[("x", JValue.num (.finite 1))]⟩].getD
          (α := Narrator.TraceSnapshot) j ⟨[]⟩) = true →
        Narrator.natDist i (min 5 1) ≤ Narrator.natDist j (min 5 1)) :=
  (C4_backfill_from_trace 5 [] [⟨[]⟩, ⟨[("x", JValue.num (.finite 1))]⟩] rfl).1
    ⟨⟨[("x", JValue.num (.finite 1))]⟩, by decide⟩

/-- **C5** (spec-modelled): after the highlight repair, every surviving
entry resolves against the data map (it names a key or an indexed
element of one); resolving entries are kept and non-resolving entries
dropped; and if dropping leaves no highlight, the first data key is
substituted as the default highlight. -/
theorem C5_highlight_resolution (data : List (String × JValue)) (hs : List String)
    (hdata : data ≠ []) :
    (∀ h ∈ Narrator.repairHighlights data hs,
      Narrator.resolvesAgainst (data.map Prod.fst) h = true)
    ∧ (∀ h ∈ hs, Narrator.resolvesAgainst (data.map Prod.fst) h = true →
        h ∈ Narrator.repairHighlights data hs)
    ∧ (hs.filter (Narrator.resolvesAgainst (data.map Prod.fst)) = [] →
        Narrator.repairHighlights data hs = (data.map Prod.fst).take 1) := by
  unfold Narrator.repairHighlights
  cases hk : hs.filter (Narrator.resolvesAgainst (data.map Prod.fst)) with
  | nil =>
      simp only [hk, List.isEmpty_nil, if_true]
      refine ⟨?_, ?_, ?_⟩
      · intro h hmem
        cases hd : data with
        | nil => exact absurd hd hdata
        | cons kv rest =>
            rw [hd] at hmem
            simp only [List.map_cons, List.take_succ_cons, List.take_zero] at hmem
            simp only [List.mem_singleton] at hmem
            subst hmem
            unfold Narrator.resolvesAgainst
            simp
      · intro h hmem hres
        have hin : h ∈ hs.filter (Narrator.resolvesAgainst (data.map Prod.fst)) :=
          List.mem_filter.mpr ⟨hmem, hres⟩
        rw [hk] at hin
        exact absurd hin (List.not_mem_nil h)
      · trivial
  | cons k0 krest =>
      simp only [hk, List.isEmpty_cons, if_false]
      refine ⟨?_, ?_, fun hc => absurd hc (List.cons_ne_nil _ _)⟩
      · intro h hmem
        rw [← hk] at hmem
        exact (List.mem_filter.mp hmem).2
      · intro h hmem hres
        rw [← hk]
        exact List.mem_filter.mpr ⟨hmem, hres⟩

theorem C5_witness :
    (∀ h ∈ Narrator.repairHighlights [("arr", JValue.arr [] [])] ["bogus", "arr[0]"],
      Narrator.resolvesAgainst ([("arr", JValue.arr [] [])].map Prod.fst) h = true)
    ∧ ("arr[0]" ∈ Narrator.repairHighlights [("arr", JValue.arr [] [])] ["bogus", "arr[0]"]) :=
  ⟨(C5_highlight_resolution [("arr", JValue.arr [] [])] ["bogus", "arr[0]"] (by decide)).1,
   (C5_highlight_resolution [("arr", JValue.arr [] [])] ["bogus", "arr[0]"] (by decide)).2.1
     "arr[0]" (by decide) (by decide)⟩

theorem map_getD_range {α : Type} (l : List α) (d : α) :
    (List.range l.length).map (fun j => l.getD j d) = l := by
  apply List.ext_getElem (by simp)
  intro i h1 h2
  simp only [List.getElem_map, List.getElem_range]
  rw [List.getD_eq_getElem?_getD, List.getElem?_eq_getElem h2]
  rfl

theorem padQuizOptions_ne_nil (opts : List String) : Narrator.padQuizOptions opts ≠ [] := by
  cases opts with
  | cons a l => simp [Narrator.padQuizOptions]
  | nil => decide

/-- **C3 counterexample**: a quiz carrying two catch-all options. After
the repair, `"None of the above"` matches a catch-all phrase yet sits at
index 2 of the four options — it is not the last element, refuting the
claim as stated. -/
theorem C3_counterexample_two_catchalls :
    (Narrator.shuffleQuizOptions
        ⟨"q", ["None of the above", "All of the above", "A", "B"], 2⟩ [0, 1]).options
      = ["A", "B", "None of the above", "All of the above"]
    ∧ Narrator.isCatchAll "None of the above" = true
    ∧ (Narrator.shuffleQuizOptions
        ⟨"q", ["None of the above", "All of the above", "A", "B"], 2⟩ [0, 1]).options.getD 2 ""
      = "None of the above"
    ∧ (2 : Nat) ≠ (Narrator.shuffleQuizOptions
        ⟨"q", ["None of the above", "All of the above", "A", "B"], 2⟩ [0, 1]).options.length - 1 := by
  decide

/-- **C3 amended**: after the quiz repair, `correct` is a valid index
(`0 ≤ correct < options.length`), and the catch-all options occupy the
final positions: the options split as ordinary ++ catch-all, so no
ordinary option follows a catch-all one, and whenever a catch-all option
is present the block of catch-alls is non-empty (in particular the last
element is a catch-all). -/
theorem C3_amended_quiz_invariant (q : Narrator.QuizT) (perm : List Nat) :
    (Narrator.shuffleQuizOptions q perm).correct
      < (Narrator.shuffleQuizOptions q perm).options.length
    ∧ ∃ A B : List String,
        (Narrator.shuffleQuizOptions q perm).options = A ++ B
        ∧ (∀ a ∈ A, Narrator.isCatchAll a = false)
        ∧ (∀ b ∈ B, Narrator.isCatchAll b = true)
        ∧ ((Narrator.shuffleQuizOptions q perm).options.any Narrator.isCatchAll = true →
            B ≠ []) := by
  unfold Narrator.shuffleQuizOptions
  simp only []
  set opts := Narrator.padQuizOptions q.options with hopts
  have hopts_ne : opts ≠ [] := padQuizOptions_ne_nil q.options
  have hopts_pos : 0 < opts.length := List.length_pos.mpr hopts_ne
  set correct0 := if q.correct < opts.length then q.correct else 0 with hc0
  have hc0_lt : correct0 < opts.length := by
    rw [hc0]
    split
    · assumption
    · exact hopts_pos
  set ordIdxs := (List.range opts.length).filter
    (fun i => !Narrator.isCatchAll (opts.getD i "")) with hord
  set catchIdxs := (List.range opts.length).filter
    (fun i => Narrator.isCatchAll (opts.getD i "")) with hcatch
  set permuted := if perm.Perm (List.range ordIdxs.length)
    then perm.map (fun j => ordIdxs.getD j 0) else ordIdxs with hpermuted
  have hperm_ord : permuted.Perm ordIdxs := by
    rw [hpermuted]
    split
    · rename_i hp
      have h1 : (perm.map (fun j => ordIdxs.getD j 0)).Perm
          ((List.range ordIdxs.length).map (fun j => ordIdxs.getD j 0)) := hp.map _
      rw [map_getD_range ordIdxs 0] at h1
      exact h1
    · exact List.Perm.refl _
  have horder : (permuted ++ catchIdxs).Perm (List.range opts.length) := by
    refine ((hperm_ord.append_right catchIdxs).trans ?_)
    refine (List.perm_append_comm).trans ?_
    exact List.filter_append_perm _ _
  have hlen : (permuted ++ catchIdxs).length = opts.length := by
    rw [horder.length_eq, List.length_range]
  have hmem0 : correct0 ∈ permuted ++ catchIdxs :=
    horder.mem_iff.mpr (List.mem_range.mpr hc0_lt)
  constructor
  · simp only [List.length_map]
    exact List.indexOf_lt_length.mpr hmem0
  · refine ⟨permuted.map (fun i => opts.getD i ""), catchIdxs.map (fun i => opts.getD i ""),
      List.map_append _ _ _, ?_, ?_, ?_⟩
    · intro a ha
      obtain ⟨i, hi, hfa⟩ := List.mem_map.mp ha
      have hi_ord : i ∈ ordIdxs := hperm_ord.mem_iff.mp hi
      have := (List.mem_filter.mp hi_ord).2
      rw [← hfa]
      simpa using this
    · intro b hb
      obtain ⟨i, hi, hfb⟩ := List.mem_map.mp hb
      have := (List.mem_filter.mp hi).2
      rw [← hfb]
      simpa using this
    · intro hany hBnil
      obtain ⟨o, ho, hco⟩ := List.any_eq_true.mp hany
      rw [List.map_append] at ho
      rcases List.mem_append.mp ho with hoA | hoB
      · obtain ⟨i, hi, hfa⟩ := List.mem_map.mp hoA
        have hi_ord : i ∈ ordIdxs := hperm_ord.mem_iff.mp hi
        have h2 := (List.mem_filter.mp hi_ord).2
        simp only [Bool.not_eq_true'] at h2
        rw [← hfa] at hco
        rw [hco] at h2
        exact Bool.noConfusion h2
      · rw [hBnil] at hoB
        simp at hoB

namespace JValue

theorem truthy_of_shape {v : JValue} (h : (v matches .obj _) ∨ (v matches .arr _ _)) :
    truthy v = true := by
  rcases h with h | h
  · match v, h with
    | .obj _, _ => rfl
  · match v, h with
    | .arr _ _, _ => rfl

theorem jgetD_of_not_truthy {v : JValue} (k : String) (h : truthy v = false) :
    jgetD v k = .undef := by
  match v with
  | .null => rfl
  | .undef => rfl
  | .bool b => rfl
  | .num n => rfl
  | .str s =>
      have hs : s = "" := by
        by_contra hne
        rw [truthy] at h
        simp [hne] at h
      subst hs
      rfl
  | .arr _ _ => simp [truthy] at h
  | .obj _ => simp [truthy] at h

theorem jgetD_str_eq_str_or_undef (s : String) (k : String) :
    jgetD (.str s) k = .undef ∨ ∃ c, jgetD (.str s) k = .str c := by
  cases hl : (jfields (.str s)).lookup k with
  | none => left; simp [jgetD, hl]
  | some w =>
      right
      have hmem := lookup_mem hl
      simp only [jfields, List.mem_map] at hmem
      obtain ⟨p, _, hp⟩ := hmem
      have hw : w = .str (String.singleton p.2) := congrArg Prod.snd hp.symm
      exact ⟨String.singleton p.2, by simp [jgetD, hl, hw]⟩

/-- Only objects and arrays can hold an object- or array-valued property. -/
theorem shape_of_jgetD_shape {v : JValue} {k : String}
    (h : ((jgetD v k) matches .obj _) ∨ ((jgetD v k) matches .arr _ _)) :
    (v matches .obj _) ∨ (v matches .arr _ _) := by
  match v with
  | .obj _ => exact Or.inl rfl
  | .arr _ _ => exact Or.inr rfl
  | .null => rcases h with h | h <;> exact nomatch h
  | .undef => rcases h with h | h <;> exact nomatch h
  | .bool b => rcases h with h | h <;> exact nomatch h
  | .num n => rcases h with h | h <;> exact nomatch h
  | .str s =>
      rcases jgetD_str_eq_str_or_undef s k with he | ⟨c, he⟩ <;> rw [he] at h <;>
        rcases h with h | h <;> exact nomatch h

theorem dataCond_iff {v : JValue} :
    (truthy v && typeofIsObject v) = true ↔ ((v matches .obj _) ∨ (v matches .arr _ _)) := by
  cases v <;> simp [truthy, typeofIsObject]

theorem lookup_objRemove_self (fs : List (String × JValue)) (k : String) :
    (objRemove fs k).lookup k = none := by
  induction fs with
  | nil => rfl
  | cons kv rest ih =>
      obtain ⟨k0, v⟩ := kv
      by_cases hk : k0 = k
      · simp [objRemove, hk] at ih ⊢
        exact ih
      · have h1 : (k == k0) = false := by simp [beq_iff_eq]; exact fun e => hk e.symm
        simp only [objRemove, List.filter] at ih ⊢
        simp only [decide_not]
        have : (decide (k0 = k)) = false := by simp [hk]
        simp [this, List.lookup, h1]
        simpa [objRemove] using ih

theorem lookup_of_jgetD_ne_undef {v : JValue} {k : String} (h : jgetD v k ≠ .undef) :
    (jfields v).lookup k = some (jgetD v k) := by
  cases hl : (jfields v).lookup k with
  | none => rw [jgetD, hl] at h; simp at h
  | some w => rw [jgetD, hl]; rfl

theorem objSet_objSet (fs : List (String × JValue)) (k : String) (x y : JValue) :
    objSet (objSet fs k x) k y = objSet fs k y := by
  induction fs with
  | nil => simp [objSet]
  | cons kv rest ih =>
      obtain ⟨k0, v⟩ := kv
      by_cases hk : k0 = k
      · simp [objSet, hk]
      · simp [objSet, hk, ih]

theorem except_bind_ok {ε α β : Type} {x : Except ε α} {f : α → Except ε β} {b : β}
    (h : (x >>= f) = Except.ok b) : ∃ a, x = Except.ok a ∧ f a = Except.ok b := by
  match x with
  | .ok a => exact ⟨a, rfl, h⟩
  | .error _ => exact nomatch h

end JValue

namespace ApiService
open JValue

/-- `v` is a plain object or an array. -/
def isContainer : JValue → Bool
  | .obj _ => true
  | .arr _ _ => true
  | _ => false

theorem isContainer_iff_shape {v : JValue} :
    isContainer v = true ↔ ((v matches .obj _) ∨ (v matches .arr _ _)) := by
  cases v
  case obj => exact ⟨fun _ => Or.inl rfl, fun _ => rfl⟩
  case arr => exact ⟨fun _ => Or.inr rfl, fun _ => rfl⟩
  all_goals exact ⟨fun h => (nomatch h), fun h => by rcases h with h | h <;> exact nomatch h⟩

theorem isContainer_of_setProp_ok {v : JValue} {k : String} {x w : JValue}
    (h : setProp v k x = .ok w) : isContainer w = true := by
  rcases setProp_ok_shape h with ⟨fs, _, hw⟩ | ⟨es, ps, _, hw⟩ <;> subst hw <;> rfl

/-- `v` is an array (`Array.isArray(v)`). -/
def isArr : JValue → Bool
  | .arr _ _ => true
  | _ => false

theorem isArr_iff {v : JValue} : isArr v = true ↔ (v matches .arr _ _) := by
  cases v
  case arr => exact ⟨fun _ => rfl, fun _ => rfl⟩
  all_goals exact ⟨fun h => (nomatch h), fun h => (nomatch h)⟩

/-- The shape a state value has after the line 191–219 repairs ran on it:
an object or array whose `data` is a non-empty sanitize-fixed object or
array, whose `highlights` is an array, whose `visual_type` is a valid
type string, and which carries no truthy `data_entries`. -/
def goodState (st : JValue) : Prop :=
  isContainer st = true ∧
  isContainer (jgetD st "data") = true ∧
  sanitizeValue (jgetD st "data") 0 = jgetD st "data" ∧
  0 < jKeyCount (jgetD st "data") ∧
  isArr (jgetD st "highlights") = true ∧
  (truthy (jgetD st "visual_type") && validTypesIncludes (jgetD st "visual_type")) = true ∧
  truthy (jgetD st "data_entries") = false

theorem ne_undef_of_shape {v : JValue}
    (h : (v matches .obj _) ∨ (v matches .arr _ _)) : v ≠ .undef := by
  rcases h with h | h
  · match v, h with
    | .obj _, _ => exact fun hh => nomatch hh
  · match v, h with
    | .arr _ _, _ => exact fun hh => nomatch hh

theorem getProp_of_shape {v : JValue}
    (h : (v matches .obj _) ∨ (v matches .arr _ _)) (k : String) :
    getProp v k = .ok (jgetD v k) := by
  rcases h with h | h
  · match v, h with
    | .obj _, _ => rfl
  · match v, h with
    | .arr _ _, _ => rfl

theorem ok_bind {ε α β : Type} (a : α) (f : α → Except ε β) :
    (Except.ok a >>= f : Except ε β) = f a := rfl

theorem pure_eq_ok {ε α : Type} (a : α) : (pure a : Except ε α) = .ok a := rfl

/-- A second run of the state-repair chain on a state of the repaired
shape returns it unchanged, for any `step_id` value and any index. -/
theorem repairStateChain_stable {st : JValue} (hg : goodState st) (sv : JValue) (i : Nat) :
    repairStateChain st sv i = .ok st := by
  obtain ⟨h1, h2, h3, h4, h5, h6, h7⟩ := hg
  have h1s := isContainer_iff_shape.mp h1
  have h2s := isContainer_iff_shape.mp h2
  have h5s := isArr_iff.mp h5
  have hD : jgetD st "data" ≠ .undef := ne_undef_of_shape h2s
  have hcond : (truthy (jgetD st "data") && typeofIsObject (jgetD st "data")) = true :=
    dataCond_iff.mpr h2s
  have hk0 : (jKeyCount (jgetD st "data") == 0) = false :=
    beq_eq_false_iff_ne.mpr (Nat.pos_iff_ne_zero.mp h4)
  have hset : setProp st "data" (sanitizeValue (jgetD st "data") 0) = .ok st := by
    rw [h3]; exact setProp_eq_self (by decide) h1s rfl hD
  unfold repairStateChain
  rw [truthy_of_shape h1s]
  simp only [if_true, hcond, h5s, h6, ite_true, pure_eq_ok, ok_bind, hset, hk0,
    Bool.false_eq_true, ite_false]

/-- After `fixQuizCorrect` wrote a non-`NaN` number into `correct`, the
result is an object or array and a second fix leaves it unchanged. -/
theorem fixQuizCorrect_post {qz q2 : JValue} {nn : JNum}
    (hnn : (nn matches .nan) = false)
    (h : setProp qz "correct" (.num nn) = .ok q2) :
    isContainer q2 = true ∧ fixQuizCorrect q2 = .ok q2 := by
  have hC : isContainer q2 = true := isContainer_of_setProp_ok h
  have hshape := isContainer_iff_shape.mp hC
  have hc : jgetD q2 "correct" = .num nn := jgetD_setProp_self (by decide) h
  have hstable : setProp q2 "correct" (.num nn) = .ok q2 :=
    setProp_eq_self (by decide) hshape hc (fun hh => nomatch hh)
  refine ⟨hC, ?_⟩
  unfold fixQuizCorrect
  rw [hc]
  cases nn with
  | nan => simp at hnn
  | finite q => simpa [jsToNumber] using hstable
  | inf => simpa [jsToNumber] using hstable
  | negInf => simpa [jsToNumber] using hstable

/-- Whatever `fixQuizCorrect` returns is an object or array that a second
fix leaves unchanged. -/
theorem fixQuizCorrect_stable {qz q2 : JValue} (h : fixQuizCorrect qz = .ok q2) :
    isContainer q2 = true ∧ fixQuizCorrect q2 = .ok q2 := by
  unfold fixQuizCorrect at h
  match hc : jgetD qz "correct" with
  | .undef => rw [hc] at h; exact fixQuizCorrect_post rfl h
  | .null => rw [hc] at h; exact fixQuizCorrect_post rfl h
  | .bool b =>
      rw [hc] at h
      simp only at h
      by_cases hn : (jsToNumber (.bool b) matches .nan) = true
      · rw [if_pos hn] at h; exact fixQuizCorrect_post rfl h
      · rw [if_neg hn] at h
        exact fixQuizCorrect_post (Bool.not_eq_true _ ▸ hn) h
  | .num m =>
      rw [hc] at h
      simp only at h
      by_cases hn : (jsToNumber (.num m) matches .nan) = true
      · rw [if_pos hn] at h; exact fixQuizCorrect_post rfl h
      · rw [if_neg hn] at h
        exact fixQuizCorrect_post (Bool.not_eq_true _ ▸ hn) h
  | .str s =>
      rw [hc] at h
      simp only at h
      by_cases hn : (jsToNumber (.str s) matches .nan) = true
      · rw [if_pos hn] at h; exact fixQuizCorrect_post rfl h
      · rw [if_neg hn] at h
        exact fixQuizCorrect_post (Bool.not_eq_true _ ▸ hn) h
  | .arr es ps =>
      rw [hc] at h
      simp only at h
      by_cases hn : (jsToNumber (.arr es ps) matches .nan) = true
      · rw [if_pos hn] at h; exact fixQuizCorrect_post rfl h
      · rw [if_neg hn] at h
        exact fixQuizCorrect_post (Bool.not_eq_true _ ▸ hn) h
  | .obj fs =>
      rw [hc] at h
      simp only at h
      by_cases hn : (jsToNumber (.obj fs) matches .nan) = true
      · rw [if_pos hn] at h; exact fixQuizCorrect_post rfl h
      · rw [if_neg hn] at h
        exact fixQuizCorrect_post (Bool.not_eq_true _ ▸ hn) h

/-- The per-frame `catch` recovery frame is a fixed point of the repair. -/
theorem recoveredFrame_stable (i j : Nat) :
    repairFrameCore (recoveredFrame i) j = .ok (recoveredFrame i) := rfl

theorem ite_ok_cases {c : Bool} {x y : Except Unit JValue} {r : JValue}
    (h : (if c = true then x else y) = .ok r) :
    (c = true ∧ x = .ok r) ∨ (c = false ∧ y = .ok r) := by
  cases c
  · rw [if_neg (by simp)] at h; exact Or.inr ⟨rfl, h⟩
  · rw [if_pos rfl] at h; exact Or.inl ⟨rfl, h⟩

theorem ite_bind_ok {c : Bool} {x y : Except Unit JValue}
    {f : JValue → Except Unit JValue} {r : JValue}
    (h : (if c = true then (x >>= f) else (y >>= f)) = .ok r) :
    ∃ a, (if c = true then x else y) = .ok a ∧ f a = .ok r := by
  cases c
  · rw [if_neg (by simp)] at h
    obtain ⟨a, ha, hf⟩ := except_bind_ok h
    exact ⟨a, by rw [if_neg (by simp)]; exact ha, hf⟩
  · rw [if_pos rfl] at h
    obtain ⟨a, ha, hf⟩ := except_bind_ok h
    exact ⟨a, by rw [if_pos rfl]; exact ha, hf⟩

/-- The `{'STEP': [stepNum + 1], 'STATUS': ['Processing...']}` fallback is
sanitize-fixed when `stepNum` is JSON-shaped. -/
theorem sanitize_fallback_obj {w : JValue} (hw : isJson w = true) :
    sanitizeValue (.obj [("STEP", .arr [jsAddOne w] []),
                         ("STATUS", .arr [.str "Processing..."] [])]) 0
    = .obj [("STEP", .arr [jsAddOne w] []),
            ("STATUS", .arr [.str "Processing..."] [])] := by
  have hleaf := sanitize_jsAddOne (v := w) (d := 2) (by norm_num) hw
  simp [sanitizeValue, sanitizeFields, sanitizeList, hleaf]

/-- Whatever the state-repair chain returns has the repaired shape,
provided the frame's `step_id` was JSON-shaped or absent and its state
had no truthy `data_entries` left. -/
theorem repairStateChain_ok_good {st1 sv : JValue} {i : Nat} {stF : JValue}
    (hsv : isJson sv = true ∨ sv = .undef)
    (hde : truthy st1 = true → truthy (jgetD st1 "data_entries") = false)
    (h : repairStateChain st1 sv i = .ok stF) : goodState stF := by
  unfold repairStateChain at h
  obtain ⟨stB, hB, h⟩ := ite_bind_ok h
  obtain ⟨stC, hC, h⟩ := ite_bind_ok h
  obtain ⟨stD, hD2, h⟩ := ite_bind_ok h
  obtain ⟨stE, hE, h⟩ := except_bind_ok h
  have hdeA : truthy (jgetD (if truthy st1 then st1 else defaultState) "data_entries")
      = false := by
    by_cases ht : truthy st1 = true
    · rw [if_pos ht]; exact hde ht
    · rw [if_neg ht]; rfl
  have hBfacts : isContainer (jgetD stB "data") = true ∧
      truthy (jgetD stB "data_entries") = false := by
    rcases ite_ok_cases hB with ⟨hc1, hB'⟩ | ⟨hc1, hB'⟩
    · rw [pure_eq_ok] at hB'
      obtain rfl : (if truthy st1 then st1 else defaultState) = stB := Except.ok.inj hB'
      exact ⟨isContainer_iff_shape.mpr (dataCond_iff.mp hc1), hdeA⟩
    · refine ⟨?_, ?_⟩
      · rw [jgetD_setProp_self (by decide) hB']; rfl
      · rw [jgetD_setProp_other (by decide) (by decide) hB']; exact hdeA
  have hCfacts : isContainer (jgetD stC "data") = true ∧
      truthy (jgetD stC "data_entries") = false ∧
      isArr (jgetD stC "highlights") = true := by
    rcases ite_ok_cases hC with ⟨hc2, hC'⟩ | ⟨hc2, hC'⟩
    · rw [pure_eq_ok] at hC'
      obtain rfl : stB = stC := Except.ok.inj hC'
      exact ⟨hBfacts.1, hBfacts.2, isArr_iff.mpr hc2⟩
    · refine ⟨?_, ?_, ?_⟩
      · rw [jgetD_setProp_other (by decide) (by decide) hC']; exact hBfacts.1
      · rw [jgetD_setProp_other (by decide) (by decide) hC']; exact hBfacts.2
      · rw [jgetD_setProp_self (by decide) hC']; rfl
  have hDfacts : isContainer (jgetD stD "data") = true ∧
      truthy (jgetD stD "data_entries") = false ∧
      isArr (jgetD stD "highlights") = true ∧
      (truthy (jgetD stD "visual_type") && validTypesIncludes (jgetD stD "visual_type"))
        = true := by
    rcases ite_ok_cases hD2 with ⟨hc3, hD'⟩ | ⟨hc3, hD'⟩
    · rw [pure_eq_ok] at hD'
      obtain rfl : stC = stD := Except.ok.inj hD'
      exact ⟨hCfacts.1, hCfacts.2.1, hCfacts.2.2, hc3⟩
    · refine ⟨?_, ?_, ?_, ?_⟩
      · rw [jgetD_setProp_other (by decide) (by decide) hD']; exact hCfacts.1
      · rw [jgetD_setProp_other (by decide) (by decide) hD']; exact hCfacts.2.1
      · rw [jgetD_setProp_other (by decide) (by decide) hD']; exact hCfacts.2.2
      · rw [jgetD_setProp_self (by decide) hD']; decide
  have hEc : isContainer stE = true := isContainer_of_setProp_ok hE
  have hEdata : jgetD stE "data" = sanitizeValue (jgetD stD "data") 0 :=
    jgetD_setProp_self (by decide) hE
  have hEdataC : isContainer (jgetD stE "data") = true := by
    rw [hEdata]
    exact isContainer_iff_shape.mpr
      (sanitizeValue_shape (by norm_num) (isContainer_iff_shape.mp hDfacts.1))
  have hEsan : sanitizeValue (jgetD stE "data") 0 = jgetD stE "data" := by
    rw [hEdata]; exact sanitizeValue_idem _ 0
  have hEhl : isArr (jgetD stE "highlights") = true := by
    rw [jgetD_setProp_other (by decide) (by decide) hE]; exact hDfacts.2.2.1
  have hEvt : (truthy (jgetD stE "visual_type")
      && validTypesIncludes (jgetD stE "visual_type")) = true := by
    rw [jgetD_setProp_other (by decide) (by decide) hE]; exact hDfacts.2.2.2
  have hEde : truthy (jgetD stE "data_entries") = false := by
    rw [jgetD_setProp_other (by decide) (by decide) hE]; exact hDfacts.2.1
  rcases ite_ok_cases h with ⟨hc4, hF⟩ | ⟨hc4, hF⟩
  · have hFc : isContainer stF = true := isContainer_of_setProp_ok hF
    have hFdata := jgetD_setProp_self (by decide) hF
    refine ⟨hFc, ?_, ?_, ?_, ?_, ?_, ?_⟩
    · rw [hFdata]; rfl
    · rw [hFdata]
      refine sanitize_fallback_obj ?_
      rcases hsv with hj | rfl
      · cases sv <;> first | rfl | exact hj
      · rfl
    · rw [hFdata]
      show 0 < 2
      norm_num
    · rw [jgetD_setProp_other (by decide) (by decide) hF]; exact hEhl
    · rw [jgetD_setProp_other (by decide) (by decide) hF]; exact hEvt
    · rw [jgetD_setProp_other (by decide) (by decide) hF]; exact hEde
  · rw [pure_eq_ok] at hF
    obtain rfl : stE = stF := Except.ok.inj hF
    have hcount : 0 < jKeyCount (jgetD stE "data") :=
      Nat.pos_of_ne_zero (beq_eq_false_iff_ne.mp hc4)
    exact ⟨hEc, hEdataC, hEsan, hcount, hEhl, hEvt, hEde⟩

/-- `typeof v === 'number'`. -/
def isNum : JValue → Bool
  | .num _ => true
  | _ => false

theorem isNum_iff {v : JValue} : isNum v = true ↔ (v matches .num _) := by
  cases v
  case num => exact ⟨fun _ => rfl, fun _ => rfl⟩
  all_goals exact ⟨fun h => (nomatch h), fun h => (nomatch h)⟩

/-- `typeof v === 'string'`. -/
def isStr : JValue → Bool
  | .str _ => true
  | _ => false

theorem isStr_iff {v : JValue} : isStr v = true ↔ (v matches .str _) := by
  cases v
  case str => exact ⟨fun _ => rfl, fun _ => rfl⟩
  all_goals exact ⟨fun h => (nomatch h), fun h => (nomatch h)⟩

theorem getProp_ok_inv {v w : JValue} {k : String} (h : getProp v k = .ok w) :
    w = jgetD v k := by
  match v, h with
  | .bool b, h => exact (Except.ok.inj h).symm
  | .num n, h => exact (Except.ok.inj h).symm
  | .str s, h => exact (Except.ok.inj h).symm
  | .arr es ps, h => exact (Except.ok.inj h).symm
  | .obj fs, h => exact (Except.ok.inj h).symm

theorem jgetD_obj_objSet_self (fs : List (String × JValue)) (k : String) (x : JValue) :
    jgetD (.obj (objSet fs k x)) k = x := by
  unfold jgetD jfields
  rw [lookup_objSet_self]
  rfl

theorem jgetD_obj_objSet_other (fs : List (String × JValue)) (k : String) (x : JValue)
    {k' : String} (hne : k' ≠ k) :
    jgetD (.obj (objSet fs k x)) k' = (fs.lookup k').getD .undef := by
  unfold jgetD jfields
  rw [lookup_objSet_other _ _ _ _ hne]

/-- Decomposition of the `data_entries` rebuild stage of the frame repair. -/
theorem frame2_stage_ok {f st0 : JValue} {J : JValue → Except Unit JValue} {v : JValue}
    (h : (if truthy st0 = true then
            (if truthy (jgetD st0 "data_entries") = true then
              (match jgetD st0 "data_entries" with
               | JValue.arr entries _ =>
                   (reduceEntries entries [] >>= fun dataFields =>
                     (pure (JValue.obj (objSet (jspread f) "state"
                        (JValue.obj (objSet (objRemove (jspread st0) "data_entries")
                          "data" (JValue.obj dataFields))))) >>= J))
               | _ => (Except.error () >>= J))
             else (pure f >>= J))
          else (pure f >>= J)) = .ok v) :
    ∃ frame2, J frame2 = .ok v ∧
      ((frame2 = f ∧
         (truthy st0 = false ∨ truthy (jgetD st0 "data_entries") = false)) ∨
       ∃ entries props dataFields,
         jgetD st0 "data_entries" = .arr entries props ∧
         reduceEntries entries [] = .ok dataFields ∧
         frame2 = JValue.obj (objSet (jspread f) "state"
           (JValue.obj (objSet (objRemove (jspread st0) "data_entries")
             "data" (JValue.obj dataFields))))) := by
  by_cases hts : truthy st0 = true
  · rw [if_pos hts] at h
    by_cases hde : truthy (jgetD st0 "data_entries") = true
    · rw [if_pos hde] at h
      cases harr : jgetD st0 "data_entries" with
      | arr entries props =>
          rw [harr] at h
          obtain ⟨dataFields, hdf, h⟩ := except_bind_ok h
          obtain ⟨frame2, hf2, h⟩ := except_bind_ok h
          rw [pure_eq_ok] at hf2
          obtain rfl := Except.ok.inj hf2
          exact ⟨_, h, Or.inr ⟨entries, props, dataFields, rfl, hdf, rfl⟩⟩
      | null => rw [harr] at h; exact absurd h (by intro hh; exact Except.noConfusion hh)
      | undef => rw [harr] at h; exact absurd h (by intro hh; exact Except.noConfusion hh)
      | bool b => rw [harr] at h; exact absurd h (by intro hh; exact Except.noConfusion hh)
      | num n => rw [harr] at h; exact absurd h (by intro hh; exact Except.noConfusion hh)
      | str s => rw [harr] at h; exact absurd h (by intro hh; exact Except.noConfusion hh)
      | obj fs => rw [harr] at h; exact absurd h (by intro hh; exact Except.noConfusion hh)
    · rw [if_neg hde] at h
      obtain ⟨frame2, hf2, h⟩ := except_bind_ok h
      rw [pure_eq_ok] at hf2
      obtain rfl := Except.ok.inj hf2
      exact ⟨f, h, Or.inl ⟨rfl, Or.inr (Bool.eq_false_iff.mpr hde)⟩⟩
  · rw [if_neg hts] at h
    obtain ⟨frame2, hf2, h⟩ := except_bind_ok h
    rw [pure_eq_ok] at hf2
    obtain rfl := Except.ok.inj hf2
    exact ⟨f, h, Or.inl ⟨rfl, Or.inl (Bool.eq_false_iff.mpr hts)⟩⟩

/-- Decomposition of the quiz-fix stage of the frame repair. -/
theorem quiz_stage_ok {frame5 qz : JValue} {J : JValue → Except Unit JValue} {v : JValue}
    (h : (if truthy qz = true then
            (fixQuizCorrect qz >>= fun q2 => setProp frame5 "quiz" q2 >>= J)
          else (pure frame5 >>= J)) = .ok v) :
    ∃ frame6, J frame6 = .ok v ∧
      ((truthy qz = false ∧ frame6 = frame5) ∨
       (truthy qz = true ∧ ∃ q2, fixQuizCorrect qz = .ok q2 ∧
          setProp frame5 "quiz" q2 = .ok frame6)) := by
  by_cases ht : truthy qz = true
  · rw [if_pos ht] at h
    obtain ⟨q2, hq2, h⟩ := except_bind_ok h
    obtain ⟨frame6, h6, h⟩ := except_bind_ok h
    exact ⟨frame6, h, Or.inr ⟨ht, q2, hq2, h6⟩⟩
  · rw [if_neg ht] at h
    obtain ⟨frame6, h6, h⟩ := except_bind_ok h
    rw [pure_eq_ok] at h6
    obtain rfl := Except.ok.inj h6
    exact ⟨frame5, h, Or.inl ⟨Bool.eq_false_iff.mpr ht, rfl⟩⟩

/-- A frame of the repaired shape passes through the repair unchanged,
for any index. -/
theorem repairFrameCore_second_run {x stF : JValue} (j : Nat)
    (hx : isContainer x = true)
    (hst : jgetD x "state" = stF)
    (hgood : goodState stF)
    (hstep : isNum (jgetD x "step_id") = true)
    (hcom : isStr (jgetD x "commentary") = true)
    (hquiz : truthy (jgetD x "quiz") = false ∨
      (isContainer (jgetD x "quiz") = true ∧
       fixQuizCorrect (jgetD x "quiz") = .ok (jgetD x "quiz"))) :
    repairFrameCore x j = .ok x := by
  have hxs := isContainer_iff_shape.mp hx
  have hstFs := isContainer_iff_shape.mp hgood.1
  have hstFtrue : truthy stF = true := truthy_of_shape hstFs
  have hgp : getProp x "state" = .ok stF := by
    rw [getProp_of_shape hxs, hst]
  have hchain : repairStateChain stF (jgetD x "step_id") j = .ok stF :=
    repairStateChain_stable hgood _ _
  have hsetState : setProp x "state" stF = .ok x :=
    setProp_eq_self (by decide) hxs hst (ne_undef_of_shape hstFs)
  have hde' : truthy (jgetD stF "data_entries") = false := hgood.2.2.2.2.2.2
  have hstep' := isNum_iff.mp hstep
  have hcom' := isStr_iff.mp hcom
  unfold repairFrameCore
  rw [hgp, ok_bind]
  rcases hquiz with hqf | ⟨hqc, hqfix⟩
  · simp only [hst, hstFtrue, if_true, ite_true, hde', Bool.false_eq_true, if_false,
      ite_false, pure_eq_ok, ok_bind, hchain, hstep', hcom', hqf, hsetState]
  · have hqs := isContainer_iff_shape.mp hqc
    have hqt : truthy (jgetD x "quiz") = true := truthy_of_shape hqs
    have hsetq : setProp x "quiz" (jgetD x "quiz") = .ok x :=
      setProp_eq_self (by decide) hxs rfl (ne_undef_of_shape hqs)
    simp only [hst, hstFtrue, if_true, ite_true, hde', Bool.false_eq_true, if_false,
      ite_false, pure_eq_ok, ok_bind, hchain, hstep', hcom', hqt, hqfix, hsetq, hsetState]

/-- Whatever the frame repair produces from a JSON frame is a fixed point
of the frame repair, at every index. -/
theorem repairFrameCore_ok_stable {f v : JValue} {i : Nat} (hf : isJson f = true)
    (h : repairFrameCore f i = .ok v) : ∀ j, repairFrameCore v j = .ok v := by
  intro j
  unfold repairFrameCore at h
  obtain ⟨st0, h0, h⟩ := except_bind_ok h
  have hst0 : st0 = jgetD f "state" := getProp_ok_inv h0
  obtain ⟨frame2, h, h2case⟩ := frame2_stage_ok h
  have hsid2 : jgetD frame2 "step_id" = jgetD f "step_id" := by
    rcases h2case with ⟨rfl, _⟩ | ⟨entries, props, dataFields, harr, hdf, rfl⟩
    · rfl
    · rw [jgetD_obj_objSet_other _ _ _ (by decide)]; rfl
  obtain ⟨frame3, h3, h⟩ := ite_bind_ok h
  obtain ⟨stF, hchain, h⟩ := except_bind_ok h
  obtain ⟨frame4, h4, h⟩ := ite_bind_ok h
  obtain ⟨frame5, h5, h⟩ := ite_bind_ok h
  obtain ⟨frame6, h, h6case⟩ := quiz_stage_ok h
  have hfin : setProp frame6 "state" stF = .ok v := h
  have hsid3 : jgetD frame3 "step_id" = jgetD f "step_id" := by
    rcases ite_ok_cases h3 with ⟨_, h3'⟩ | ⟨_, h3'⟩
    · rw [pure_eq_ok] at h3'
      obtain rfl := Except.ok.inj h3'
      exact hsid2
    · rw [jgetD_setProp_other (by decide) (by decide) h3']; exact hsid2
  have hsv : isJson (jgetD frame3 "step_id") = true ∨ jgetD frame3 "step_id" = .undef := by
    rw [hsid3]; exact isJson_jgetD _ hf
  have hde : truthy (jgetD frame2 "state") = true →
      truthy (jgetD (jgetD frame2 "state") "data_entries") = false := by
    rcases h2case with ⟨rfl, hcond⟩ | ⟨entries, props, dataFields, harr, hdf, rfl⟩
    · rw [← hst0]
      intro ht
      rcases hcond with hc | hc
      · rw [hc] at ht; exact Bool.noConfusion ht
      · exact hc
    · intro _
      rw [jgetD_obj_objSet_self]
      rw [jgetD_obj_objSet_other _ _ _ (by decide)]
      rw [lookup_objRemove_self]
      rfl
  have hgood : goodState stF := repairStateChain_ok_good hsv hde hchain
  have hstep4 : isNum (jgetD frame4 "step_id") = true := by
    rcases ite_ok_cases h4 with ⟨hc4, h4'⟩ | ⟨hc4, h4'⟩
    · rw [pure_eq_ok] at h4'
      obtain rfl := Except.ok.inj h4'
      exact isNum_iff.mpr hc4
    · rw [jgetD_setProp_self (by decide) h4']; rfl
  have hstep5 : isNum (jgetD frame5 "step_id") = true := by
    rcases ite_ok_cases h5 with ⟨hc5, h5'⟩ | ⟨hc5, h5'⟩
    · rw [pure_eq_ok] at h5'
      obtain rfl := Except.ok.inj h5'
      exact hstep4
    · rw [jgetD_setProp_other (by decide) (by decide) h5']; exact hstep4
  have hcom5 : isStr (jgetD frame5 "commentary") = true := by
    rcases ite_ok_cases h5 with ⟨hc5, h5'⟩ | ⟨hc5, h5'⟩
    · rw [pure_eq_ok] at h5'
      obtain rfl := Except.ok.inj h5'
      exact isStr_iff.mpr hc5
    · rw [jgetD_setProp_self (by decide) h5']; rfl
  have hstep6 : isNum (jgetD frame6 "step_id") = true := by
    rcases h6case with ⟨hqf, rfl⟩ | ⟨hqt, q2, hq2, hset6⟩
    · exact hstep5
    · rw [jgetD_setProp_other (by decide) (by decide) hset6]; exact hstep5
  have hcom6 : isStr (jgetD frame6 "commentary") = true := by
    rcases h6case with ⟨hqf, rfl⟩ | ⟨hqt, q2, hq2, hset6⟩
    · exact hcom5
    · rw [jgetD_setProp_other (by decide) (by decide) hset6]; exact hcom5
  have hvC : isContainer v = true := isContainer_of_setProp_ok hfin
  have hvst : jgetD v "state" = stF := jgetD_setProp_self (by decide) hfin
  have hvstep : isNum (jgetD v "step_id") = true := by
    rw [jgetD_setProp_other (by decide) (by decide) hfin]; exact hstep6
  have hvcom : isStr (jgetD v "commentary") = true := by
    rw [jgetD_setProp_other (by decide) (by decide) hfin]; exact hcom6
  have hvquiz : truthy (jgetD v "quiz") = false ∨
      (isContainer (jgetD v "quiz") = true ∧
       fixQuizCorrect (jgetD v "quiz") = .ok (jgetD v "quiz")) := by
    have hq : jgetD v "quiz" = jgetD frame6 "quiz" :=
      jgetD_setProp_other (by decide) (by decide) hfin
    rcases h6case with ⟨hqf, rfl⟩ | ⟨hqt, q2, hq2, hset6⟩
    · left; rw [hq]; exact hqf
    · right
      have hq6 : jgetD frame6 "quiz" = q2 := jgetD_setProp_self (by decide) hset6
      rw [hq, hq6]
      exact fixQuizCorrect_stable hq2
  exact repairFrameCore_second_run j hvC hvst hgood hvstep hvcom hvquiz

/-- One repaired frame re-repairs to itself (`catch` recovery included). -/
theorem repairFrame_stable {f : JValue} (hf : isJson f = true) (i j : Nat) :
    repairFrame (repairFrame f i) j = repairFrame f i := by
  cases hcore : repairFrameCore f i with
  | ok w =>
      have h1 : repairFrame f i = w := by unfold repairFrame; rw [hcore]
      rw [h1]
      unfold repairFrame
      rw [repairFrameCore_ok_stable hf hcore j]
  | error e =>
      have h1 : repairFrame f i = recoveredFrame i := by unfold repairFrame; rw [hcore]
      rw [h1]
      unfold repairFrame
      rw [recoveredFrame_stable i j]

theorem mem_mapWithIdx {g : Nat → JValue → JValue} :
    ∀ {s : Nat} {l : List JValue} {y : JValue}, y ∈ mapWithIdx g s l →
      ∃ n x, x ∈ l ∧ y = g n x := by
  intro s l
  induction l generalizing s with
  | nil => intro y hy; simp [mapWithIdx] at hy
  | cons a as ih =>
      intro y hy
      rw [mapWithIdx] at hy
      rcases List.mem_cons.mp hy with h1 | h1
      · exact ⟨s, a, List.mem_cons_self _ _, h1⟩
      · obtain ⟨n, x, hx, hyx⟩ := ih h1
        exact ⟨n, x, List.mem_cons_of_mem _ hx, hyx⟩

theorem mapWithIdx_eq_self {l : List JValue} {g : Nat → JValue → JValue}
    (h : ∀ x ∈ l, ∀ n, g n x = x) : ∀ s, mapWithIdx g s l = l := by
  induction l with
  | nil => intro s; rfl
  | cons a as ih =>
      intro s
      rw [mapWithIdx, h a (List.mem_cons_self _ _) s,
        ih (fun x hx => h x (List.mem_cons_of_mem _ hx)) (s + 1)]

theorem frames_body_cases {d : JValue} {es : List JValue}
    (h : (if truthy (jgetD d "frames") = true then
            match jgetD d "frames" with
            | JValue.arr l _ => some l
            | _ => none
          else some []) = some es) :
    es = [] ∨ ∃ ps, jgetD d "frames" = .arr es ps := by
  by_cases ht : truthy (jgetD d "frames") = true
  · rw [if_pos ht] at h
    cases harr : jgetD d "frames" with
    | arr l ps =>
        rw [harr] at h
        have hl : l = es := Option.some.inj h
        subst hl
        exact Or.inr ⟨ps, rfl⟩
    | null => rw [harr] at h; exact absurd h (fun hh => Option.noConfusion hh)
    | undef => rw [harr] at h; exact absurd h (fun hh => Option.noConfusion hh)
    | bool b => rw [harr] at h; exact absurd h (fun hh => Option.noConfusion hh)
    | num n => rw [harr] at h; exact absurd h (fun hh => Option.noConfusion hh)
    | str s => rw [harr] at h; exact absurd h (fun hh => Option.noConfusion hh)
    | obj fs => rw [harr] at h; exact absurd h (fun hh => Option.noConfusion hh)
  · rw [if_neg ht] at h
    exact Or.inl (Option.some.inj h).symm

theorem framesJ_some_cases {data : JValue} {es : List JValue} (h : framesJ data = some es) :
    es = [] ∨ ∃ ps, jgetD data "frames" = .arr es ps := by
  cases data with
  | null => exact absurd h (fun hh => Option.noConfusion hh)
  | undef => exact absurd h (fun hh => Option.noConfusion hh)
  | bool b => exact frames_body_cases h
  | num n => exact frames_body_cases h
  | str s => exact frames_body_cases h
  | arr l p => exact frames_body_cases h
  | obj fs => exact frames_body_cases h

theorem framesJ_obj_arr {fs : List (String × JValue)} {l : List JValue}
    {ps : List (String × JValue)}
    (h : jgetD (.obj fs) "frames" = .arr l ps) : framesJ (.obj fs) = some l := by
  have hbody : framesJ (.obj fs) = (if truthy (jgetD (.obj fs) "frames") = true then
      match jgetD (.obj fs) "frames" with
      | JValue.arr l _ => some l
      | _ => none
    else some []) := rfl
  rw [hbody, h]
  rfl

theorem analyzeProcess_ok_inv {data t : JValue} (h : analyzeProcess data = .ok t) :
    ∃ g gs, validFramesOf data = some (g :: gs) ∧
      t = .obj (objSet (jspread data) "frames" (.arr (g :: gs) [])) := by
  unfold analyzeProcess at h
  cases hv : validFramesOf data with
  | none => rw [hv] at h; exact absurd h (fun hh => Except.noConfusion hh)
  | some vf =>
      rw [hv] at h
      cases vf with
      | nil => exact absurd h (fun hh => Except.noConfusion hh)
      | cons g gs => exact ⟨g, gs, rfl, (Except.ok.inj h).symm⟩

theorem validFramesOf_some {data : JValue} {vf : List JValue}
    (h : validFramesOf data = some vf) :
    ∃ es, framesJ data = some es ∧
      vf = (mapWithIdx (fun i f => repairFrame f i) 0 es).filter frameFilterPred := by
  unfold validFramesOf repairedFramesOf at h
  cases he : framesJ data with
  | none => rw [he] at h; exact absurd h (fun hh => Option.noConfusion hh)
  | some es =>
      rw [he] at h
      simp only [Option.map] at h
      exact ⟨es, rfl, (Option.some.inj h).symm⟩

/-- **C7**: the frame/quiz repair step is idempotent — for every
JSON-decoded pipeline response `data` that the adapter turns into a trace
`t`, processing `t` itself through the same repair-filter-rewrap pass
returns `t` unchanged: same frames, same highlights, same quiz options
and `correct` index. -/
theorem C7_repair_idempotent {data t : JValue} (hd : JValue.isJson data = true)
    (h : analyzeProcess data = .ok t) : analyzeProcess t = .ok t := by
  obtain ⟨g, gs, hvf, ht⟩ := analyzeProcess_ok_inv h
  obtain ⟨es, hes, hfilter⟩ := validFramesOf_some hvf
  have hesJson : ∀ x ∈ es, isJson x = true := by
    rcases framesJ_some_cases hes with rfl | ⟨ps, harr⟩
    · intro x hx; simp at hx
    · intro x hx
      rcases isJson_jgetD "frames" hd with hj | hu
      · rw [harr] at hj
        rw [isJson, Bool.and_eq_true] at hj
        exact isJsonList_mem hj.2 x hx
      · rw [harr] at hu; exact absurd hu (fun hh => JValue.noConfusion hh)
  have hstable : ∀ x ∈ g :: gs, ∀ n, repairFrame x n = x := by
    intro x hx n
    rw [hfilter] at hx
    have hx' := List.mem_of_mem_filter hx
    obtain ⟨m, y, hy, rfl⟩ := mem_mapWithIdx hx'
    exact repairFrame_stable (hesJson y hy) m n
  have hpred : ∀ x ∈ g :: gs, frameFilterPred x = true := by
    intro x hx
    rw [hfilter] at hx
    exact List.of_mem_filter hx
  have hframesT : framesJ t = some (g :: gs) := by
    rw [ht]
    exact framesJ_obj_arr (jgetD_obj_objSet_self _ _ _)
  have hrt : validFramesOf t = some (g :: gs) := by
    unfold validFramesOf repairedFramesOf
    rw [hframesT]
    simp only [Option.map]
    rw [mapWithIdx_eq_self (fun x hx n => hstable x hx n) 0]
    rw [List.filter_eq_self.mpr hpred]
  unfold analyzeProcess
  rw [hrt, ht]
  have hj : jspread (JValue.obj (objSet (jspread data) "frames" (.arr (g :: gs) [])))
      = objSet (jspread data) "frames" (.arr (g :: gs) []) := rfl
  show Except.ok (JValue.obj (objSet
      (jspread (JValue.obj (objSet (jspread data) "frames" (.arr (g :: gs) []))))
      "frames" (.arr (g :: gs) [])))
    = Except.ok (JValue.obj (objSet (jspread data) "frames" (.arr (g :: gs) [])))
  rw [hj, objSet_objSet]

/-- A sample decoded `/analyze` body whose lone frame needs real repair:
`highlights` and `visual_type` are missing, `step_id` and `commentary`
are absent, and the quiz's `correct` is the string `"1"`. -/
def sampleC7 : JValue :=
  .obj [("frames", .arr [
    .obj [("state", .obj [("data",
             .obj [("A", .arr [.num (.finite 3), .num (.finite 1)] [])])]),
          ("quiz", .obj [("question", .str "q"),
                         ("options", .arr [.str "a", .str "b"] []),
                         ("correct", .str "1")])]] []),
        ("algorithm", .str "demo")]

/-- The trace the adapter builds from `sampleC7`: `highlights` and
`visual_type` installed, `step_id` and `commentary` synthesized, and the
quiz's `correct` number-coerced. -/
def sampleC7R : JValue :=
  .obj [("frames", .arr [
    .obj [("state", .obj [("data",
             .obj [("A", .arr [.num (.finite (mkRat 3 1)),
                               .num (.finite (mkRat 1 1))] [])]),
           ("highlights", .arr [] []),
           ("visual_type", .str "array")]),
          ("quiz", .obj [("question", .str "q"),
                         ("options", .arr [.str "a", .str "b"] []),
                         ("correct", .num (.finite (mkRat 1 1)))]),
          ("step_id", .num (.finite (mkRat 0 1))),
          ("commentary", .str "Step 1")]] []),
        ("algorithm", .str "demo")]

theorem C7_witness :
    JValue.isJson sampleC7 = true ∧
    analyzeProcess sampleC7 = .ok sampleC7R ∧
    analyzeProcess sampleC7R = .ok sampleC7R :=
  ⟨by decide, by rfl, @C7_repair_idempotent sampleC7 sampleC7R (by decide) (by rfl)⟩

end ApiService
